import Mathlib

/-!
# Video timing unit of mGBA (`src/gba/gba-video.c`)

A shallow embedding of the scanline / blanking state machine, the DISPSTAT
register interface and the calls the unit makes to its collaborators.

Conventions of the embedding.

* C `int` / `int32_t` fields are held as mathematical integers.  The C code is
  defined only while every intermediate value fits the signed 32-bit range, so a
  statement "no overflow" is a statement that the integer computed here stays in
  that range.
* `uint16_t` arguments are natural numbers below `65536`; results converted to
  `uint16_t` are reduced modulo `65536`.
* Calls to collaborators (interrupt controller, DMA engine, frame pacing,
  renderer) are recorded, in program order, in a list of `Call`s.
* `GBASyncDrawingFrame` is an external query.  One `GBAVideoProcessEvents` call
  asks it at most once, so its answer is an argument (`drawing`) of the call.
-/

namespace MGBA

/-! ## Constants of `gba-video.h` -/

/-- Modelled from the spec: `VIDEO_VERTICAL_PIXELS` of the absent `gba-video.h`,
the number of visible scanlines (160). -/
def VIDEO_VERTICAL_PIXELS : Int := 160

/-- Modelled from the spec: `VIDEO_VERTICAL_TOTAL_PIXELS` of the absent
`gba-video.h`, the number of scanlines of a frame (228). -/
def VIDEO_VERTICAL_TOTAL_PIXELS : Int := 228

/-- Modelled from the spec: `VIDEO_HDRAW_LENGTH` of the absent `gba-video.h`,
the length of Hdraw in cycles (1006). -/
def VIDEO_HDRAW_LENGTH : Int := 1006

/-- Modelled from the spec: `VIDEO_HBLANK_LENGTH` of the absent `gba-video.h`,
the length of Hblank in cycles (226). -/
def VIDEO_HBLANK_LENGTH : Int := 226

/-- Modelled from the spec: `VIDEO_HORIZONTAL_LENGTH` of the absent
`gba-video.h`, one scanline period (1006 + 226 = 1232 cycles). -/
def VIDEO_HORIZONTAL_LENGTH : Int := 1232

/-- Modelled from the spec: `VIDEO_TOTAL_LENGTH` of the absent `gba-video.h`,
one frame period (228 * 1232 = 280896 cycles). -/
def VIDEO_TOTAL_LENGTH : Int := 280896

/-! ## Data model -/

/-- Interrupt kinds passed to `GBARaiseIRQ`. -/
inductive IRQ where
  | IRQ_VBLANK
  | IRQ_HBLANK
  | IRQ_VCOUNTER
  deriving DecidableEq, Repr

/-- A call made by the video unit to one of its collaborators.  Renderer calls
carry the identity of the renderer they are made on. -/
inductive Call where
  | GBASyncDrawingFrame
  | GBASyncPostFrame
  | GBAMemoryRunVblankDMAs
  | GBAMemoryRunHblankDMAs
  | GBARaiseIRQ (irq : IRQ)
  | finishFrame (renderer : Nat)
  | drawScanline (renderer : Nat) (y : Int)
  | deinit (renderer : Nat)
  | init (renderer : Nat)
  deriving DecidableEq, Repr

/-- Identity of the static `dummyRenderer`. -/
def dummyRenderer : Nat := 0

/-- Modelled from the spec: `struct GBAVideo`, declared in the absent
`gba-video.h`.  The fields are the ones `gba-video.c` reads and writes; flags
are C `int`s (0 / non-zero), countdowns are `int32_t`.  `ioVCOUNT` stands for
the I/O register `video->p->memory.io[REG_VCOUNT >> 1]`. -/
structure GBAVideo where
  renderer : Nat
  inHblank : Int
  inVblank : Int
  vcounter : Int
  vblankIRQ : Int
  hblankIRQ : Int
  vcounterIRQ : Int
  vcountSetting : Int
  vcount : Int
  lastHblank : Int
  nextHblank : Int
  nextEvent : Int
  eventDiff : Int
  nextHblankIRQ : Int
  nextVblankIRQ : Int
  nextVcounterIRQ : Int
  ioVCOUNT : Int
  deriving DecidableEq, Repr

/-- What one call of `GBAVideoProcessEvents` produces: the updated structure,
the returned value and the collaborator calls made, in order. -/
structure Outcome where
  video : GBAVideo
  ret : Int
  calls : List Call
  deriving DecidableEq, Repr

/-! ## Operations -/

/-- `GBAVideoInit` (lines 25-48).  The structure is overwritten field by field;
the I/O register is not touched.  The `mmap` of VRAM is outside the model. -/
def GBAVideoInit (video : GBAVideo) : GBAVideo :=
  { video with
    renderer := dummyRenderer
    inHblank := 0
    inVblank := 0
    vcounter := 0
    vblankIRQ := 0
    hblankIRQ := 0
    vcounterIRQ := 0
    vcountSetting := 0
    vcount := -1
    lastHblank := 0
    nextHblank := VIDEO_HDRAW_LENGTH
    nextEvent := VIDEO_HDRAW_LENGTH
    eventDiff := VIDEO_HDRAW_LENGTH
    nextHblankIRQ := 0
    nextVblankIRQ := 0
    nextVcounterIRQ := 0 }

/-- The `switch (video->vcount)` of lines 80-100, run after the increment. -/
def vcountSwitch (video : GBAVideo) (drawing : Bool) : GBAVideo × List Call :=
  if video.vcount = VIDEO_VERTICAL_PIXELS then
    ({ video with
        inVblank := 1
        nextVblankIRQ := video.nextEvent + VIDEO_TOTAL_LENGTH },
      [Call.GBASyncDrawingFrame]
        ++ (if drawing then [Call.finishFrame video.renderer] else [])
        ++ [Call.GBAMemoryRunVblankDMAs]
        ++ (if video.vblankIRQ ≠ 0 then [Call.GBARaiseIRQ IRQ.IRQ_VBLANK] else [])
        ++ [Call.GBASyncPostFrame])
  else if video.vcount = VIDEO_VERTICAL_TOTAL_PIXELS - 1 then
    ({ video with inVblank := 0 }, [])
  else if video.vcount = VIDEO_VERTICAL_TOTAL_PIXELS then
    ({ video with vcount := 0, ioVCOUNT := 0 }, [])
  else
    (video, [])

/-- Lines 102-106: recompute the vcounter flag and raise its interrupt. -/
def vcounterCheck (video : GBAVideo) : GBAVideo × List Call :=
  let video := { video with
    vcounter := if video.vcount = video.vcountSetting then 1 else 0 }
  if video.vcounter ≠ 0 ∧ video.vcounterIRQ ≠ 0 then
    ({ video with nextVcounterIRQ := video.nextVcounterIRQ + VIDEO_TOTAL_LENGTH },
      [Call.GBARaiseIRQ IRQ.IRQ_VCOUNTER])
  else
    (video, [])

/-- Lines 108-110: draw the new scanline when it is visible and the frame is
being drawn.  The pacing query is only made for a visible line. -/
def drawCheck (video : GBAVideo) (drawing : Bool) : List Call :=
  if video.vcount < VIDEO_VERTICAL_PIXELS then
    [Call.GBASyncDrawingFrame]
      ++ (if drawing then [Call.drawScanline video.renderer video.vcount] else [])
  else
    []

/-- The "End Hblank" branch, lines 73-110. -/
def endHblank (video : GBAVideo) (drawing : Bool) : GBAVideo × List Call :=
  let video := { video with inHblank := 0, nextEvent := video.nextHblank }
  let video := { video with vcount := video.vcount + 1 }
  let video := { video with ioVCOUNT := video.vcount % 65536 }
  let s := vcountSwitch video drawing
  let c := vcounterCheck s.1
  (c.1, s.2 ++ c.2 ++ drawCheck c.1 drawing)

/-- The "Begin Hblank" branch, lines 112-124. -/
def beginHblank (video : GBAVideo) : GBAVideo × List Call :=
  let video := { video with inHblank := 1, lastHblank := video.nextHblank }
  let video := { video with nextEvent := video.lastHblank + VIDEO_HBLANK_LENGTH }
  let video := { video with nextHblank := video.nextEvent + VIDEO_HDRAW_LENGTH }
  let video := { video with nextHblankIRQ := video.nextHblank }
  (video,
    (if video.vcount < VIDEO_VERTICAL_PIXELS then [Call.GBAMemoryRunHblankDMAs] else [])
      ++ (if video.hblankIRQ ≠ 0 then [Call.GBARaiseIRQ IRQ.IRQ_HBLANK] else []))

/-- `GBAVideoProcessEvents` (lines 64-130).  `drawing` is the answer
`GBASyncDrawingFrame` gives if this call asks. -/
def GBAVideoProcessEvents (video : GBAVideo) (cycles : Int) (drawing : Bool) : Outcome :=
  let video := { video with nextEvent := video.nextEvent - cycles }
  if video.nextEvent ≤ 0 then
    let video := { video with
      lastHblank := video.lastHblank - video.eventDiff
      nextHblank := video.nextHblank - video.eventDiff
      nextHblankIRQ := video.nextHblankIRQ - video.eventDiff
      nextVcounterIRQ := video.nextVcounterIRQ - video.eventDiff }
    let r := if video.inHblank ≠ 0 then endHblank video drawing else beginHblank video
    let video := { r.1 with eventDiff := r.1.nextEvent }
    { video := video, ret := video.nextEvent, calls := r.2 }
  else
    { video := video, ret := video.nextEvent, calls := [] }

/-- `GBAVideoWriteDISPSTAT` (lines 132-145); `value` is the `uint16_t` written. -/
def GBAVideoWriteDISPSTAT (video : GBAVideo) (value : Nat) : GBAVideo :=
  let video := { video with
    vblankIRQ := ((value &&& 0x0008 : Nat) : Int)
    hblankIRQ := ((value &&& 0x0010 : Nat) : Int)
    vcounterIRQ := ((value &&& 0x0020 : Nat) : Int)
    vcountSetting := (((value &&& 0xFF00) >>> 8 : Nat) : Int) }
  if video.vcounterIRQ ≠ 0 then
    let video := { video with
      nextVcounterIRQ := video.nextHblank + VIDEO_HBLANK_LENGTH
        + (video.vcountSetting - video.vcount) * VIDEO_HORIZONTAL_LENGTH }
    if video.nextVcounterIRQ < video.nextEvent then
      { video with nextVcounterIRQ := video.nextVcounterIRQ + VIDEO_TOTAL_LENGTH }
    else
      video
  else
    video

/-- `GBAVideoReadDISPSTAT` (lines 147-149); the `int` expression is converted to
the `uint16_t` result. -/
def GBAVideoReadDISPSTAT (video : GBAVideo) : Nat :=
  (Int.lor (Int.lor video.inVblank (video.inHblank <<< (1 : Int))) (video.vcounter <<< (2 : Int))
    % 65536).toNat

/-! ## Driving the unit -/

/-- The unit as seen by the driving loop: the structure, the number of
`GBASyncDrawingFrame` queries answered so far, and the calls made so far. -/
structure Session where
  video : GBAVideo
  asked : Nat
  log : List Call
  deriving DecidableEq, Repr

/-- One `GBAVideoProcessEvents` call inside a session.  The frame-pacing
collaborator is a sequence `sync` of answers, consumed one per query. -/
def Session.process (sync : Nat → Bool) (s : Session) (cycles : Int) : Session :=
  let r := GBAVideoProcessEvents s.video cycles (sync s.asked)
  { video := r.video
    asked := s.asked + r.calls.count Call.GBASyncDrawingFrame
    log := s.log ++ r.calls }

/-- A sequence of `GBAVideoProcessEvents` calls, given by their `cycles`. -/
def Session.run (sync : Nat → Bool) (s : Session) : List Int → Session
  | [] => s
  | c :: cs => Session.run sync (Session.process sync s c) cs

/-- Budget compliance: every call advances by between 0 and the current
`nextEvent` cycles (the value the previous call returned). -/
def Compliant (sync : Nat → Bool) (s : Session) : List Int → Prop
  | [] => True
  | c :: cs => 0 ≤ c ∧ c ≤ s.video.nextEvent ∧ Compliant sync (Session.process sync s c) cs

instance Compliant.decide (sync : Nat → Bool) :
    (s : Session) → (l : List Int) → Decidable (Compliant sync s l)
  | _, [] => isTrue trivial
  | s, c :: cs =>
    have := Compliant.decide sync (Session.process sync s c) cs
    inferInstanceAs (Decidable (0 ≤ c ∧ c ≤ s.video.nextEvent ∧ _))

/-- The value of the scanline counter after each call of a sequence. -/
def scanlines (sync : Nat → Bool) (s : Session) : List Int → List Int
  | [] => []
  | c :: cs =>
    (Session.process sync s c).video.vcount :: scanlines sync (Session.process sync s c) cs

/-- States reachable from a `GBAVideoInit` state by `GBAVideoProcessEvents`
calls with non-negative `cycles` and `GBAVideoWriteDISPSTAT` calls. -/
inductive Reachable : GBAVideo → Prop where
  | init (v0 : GBAVideo) : Reachable (GBAVideoInit v0)
  | process (v : GBAVideo) (cycles : Int) (drawing : Bool) :
      Reachable v → 0 ≤ cycles → Reachable (GBAVideoProcessEvents v cycles drawing).video
  | write (v : GBAVideo) (value : Nat) :
      Reachable v → value < 65536 → Reachable (GBAVideoWriteDISPSTAT v value)

/-- States reachable from a `GBAVideoInit` state by budget-compliant
`GBAVideoProcessEvents` calls and `GBAVideoWriteDISPSTAT` calls. -/
inductive ReachableB : GBAVideo → Prop where
  | init (v0 : GBAVideo) : ReachableB (GBAVideoInit v0)
  | process (v : GBAVideo) (cycles : Int) (drawing : Bool) :
      ReachableB v → 0 ≤ cycles → cycles ≤ v.nextEvent →
      ReachableB (GBAVideoProcessEvents v cycles drawing).video
  | write (v : GBAVideo) (value : Nat) :
      ReachableB v → value < 65536 → ReachableB (GBAVideoWriteDISPSTAT v value)

/-- The budget-driven schedule of `n` scanline periods starting at the
beginning of Hdraw: 1006 cycles, then 226, repeated. -/
def lineSchedule : Nat → List Int
  | 0 => []
  | n + 1 => VIDEO_HDRAW_LENGTH :: VIDEO_HBLANK_LENGTH :: lineSchedule n

/-- The contents of the structure before `GBAVideoInit` has run (all zero). -/
def blank : GBAVideo :=
  { renderer := 0, inHblank := 0, inVblank := 0, vcounter := 0, vblankIRQ := 0,
    hblankIRQ := 0, vcounterIRQ := 0, vcountSetting := 0, vcount := 0, lastHblank := 0,
    nextHblank := 0, nextEvent := 0, eventDiff := 0, nextHblankIRQ := 0,
    nextVblankIRQ := 0, nextVcounterIRQ := 0, ioVCOUNT := 0 }

/-- Timing part of the state invariant: the phase flag, the budget and the
Hblank countdowns agree. -/
def Timed (v : GBAVideo) : Prop :=
  (v.inHblank = 0 ∧ 0 < v.nextEvent ∧ v.nextEvent ≤ 1006 ∧ v.eventDiff = 1006 ∧
      v.nextHblank = 1006 ∧ (v.lastHblank = 0 ∨ v.lastHblank = -226) ∧
      (v.nextHblankIRQ = 0 ∨ v.nextHblankIRQ = 1006)) ∨
  (v.inHblank = 1 ∧ 0 < v.nextEvent ∧ v.nextEvent ≤ 226 ∧ v.eventDiff = 226 ∧
      v.nextHblank = 1232 ∧ v.lastHblank = 0 ∧ v.nextHblankIRQ = 1232)

/-- Scanline part of the state invariant. -/
def Lined (v : GBAVideo) : Prop :=
  -1 ≤ v.vcount ∧ v.vcount ≤ 227 ∧
  (v.inVblank = 0 ∨ v.inVblank = 1) ∧
  (v.vcounter = 0 ∨ v.vcounter = 1) ∧
  (v.inVblank = 1 ↔ 160 ≤ v.vcount ∧ v.vcount ≤ 226) ∧
  (v.nextVblankIRQ = 0 ∨ v.nextVblankIRQ = 281902)

/-- Unit stepping: `n` calls of one cycle each. -/
def Session.ticks (sync : Nat → Bool) (s : Session) : Nat → Session
  | 0 => s
  | n + 1 => Session.ticks sync (Session.process sync s 1) n

/-- Cycles elapsed since the start of the current scanline. -/
def lineClock (v : GBAVideo) : Int :=
  if v.inHblank = 0 then 1006 - v.nextEvent else 1232 - v.nextEvent

/-- Cycles elapsed since scanline 0 of the current frame began (negative during
the pre-roll scanline -1). -/
def framePos (v : GBAVideo) : Int :=
  v.vcount * 1232 + lineClock v

/-- Recognises a `finishFrame` call, whatever renderer it is made on. -/
def Call.isFinishFrame : Call → Bool
  | Call.finishFrame _ => true
  | _ => false

/-- Scanline 0 of the first frame has just begun: `GBAVideoInit` followed by
one Hdraw and one Hblank of the pre-roll scanline. -/
def lineZero : GBAVideo :=
  (GBAVideoProcessEvents (GBAVideoProcessEvents (GBAVideoInit blank) 1006 false).video
    226 false).video

/-- A frame-pacing collaborator that reports every frame active. -/
def alwaysDrawing : Nat → Bool := fun _ => true

/-- The state at the start of scanline 227, the last scanline of the first
frame: `GBAVideoInit`, then 228 scanline periods driven by the returned budget
(the pre-roll scanline -1 and scanlines 0 to 226). -/
def lastLine : GBAVideo :=
  (Session.run alwaysDrawing ⟨GBAVideoInit blank, 0, []⟩ (lineSchedule 228)).video

/-- Reachable states together with the vcounter target that was configured
when the most recent end-of-Hblank transition ran (0 before the first one). -/
inductive ReachableLatched : GBAVideo → Int → Prop where
  | init (v0 : GBAVideo) : ReachableLatched (GBAVideoInit v0) 0
  | process (v : GBAVideo) (t : Int) (cycles : Int) (drawing : Bool) :
      ReachableLatched v t → 0 ≤ cycles →
      ReachableLatched (GBAVideoProcessEvents v cycles drawing).video
        (if v.nextEvent - cycles ≤ 0 ∧ v.inHblank ≠ 0 then v.vcountSetting else t)
  | write (v : GBAVideo) (t : Int) (value : Nat) :
      ReachableLatched v t → value < 65536 →
      ReachableLatched (GBAVideoWriteDISPSTAT v value) t

/-- The state after `n` scanline periods from power-on, driven by the returned
budget, with DISPSTAT never written. -/
def afterLines (n : Nat) : GBAVideo :=
  (Session.run alwaysDrawing ⟨GBAVideoInit blank, 0, []⟩ (lineSchedule n)).video

/-- Recognises the calls that make the renderer draw: `drawScanline` and
`finishFrame`. -/
def Call.isRendererOutput : Call → Bool
  | Call.finishFrame _ => true
  | Call.drawScanline _ _ => true
  | _ => false

/-- Recognises a `drawScanline` call for row `y`, whatever renderer it is made
on. -/
def Call.isDrawScanline (y : Int) : Call → Bool
  | Call.drawScanline _ z => decide (z = y)
  | _ => false

/-- The well-formedness predicate of the timing state: scanline in -1..227,
the three flags 0 or 1, and in each phase a positive budget no longer than the
phase together with the matching `eventDiff` and `nextHblank`. -/
def WellFormed (v : GBAVideo) : Prop :=
  -1 ≤ v.vcount ∧ v.vcount ≤ 227 ∧
  (v.inHblank = 0 ∨ v.inHblank = 1) ∧
  (v.inVblank = 0 ∨ v.inVblank = 1) ∧
  (v.vcounter = 0 ∨ v.vcounter = 1) ∧
  (v.inHblank ≠ 0 →
    0 < v.nextEvent ∧ v.nextEvent ≤ 226 ∧ v.eventDiff = 226 ∧ v.nextHblank = 1232) ∧
  (v.inHblank = 0 →
    0 < v.nextEvent ∧ v.nextEvent ≤ 1006 ∧ v.eventDiff = 1006 ∧ v.nextHblank = 1006)

/-- The rebase of lines 67-70, taken on its own: the four subtractions made
before the phase dispatch. -/
def rebase (video : GBAVideo) : GBAVideo :=
  { video with
    lastHblank := video.lastHblank - video.eventDiff
    nextHblank := video.nextHblank - video.eventDiff
    nextHblankIRQ := video.nextHblankIRQ - video.eventDiff
    nextVcounterIRQ := video.nextVcounterIRQ - video.eventDiff }

/-- Modelled from the spec: the memory references of `struct GBAVideoRenderer`
(fields `palette`, `vram`, `oam`), declared in the absent `gba-video.h`.
Addresses are natural numbers. -/
structure RendererRefs where
  palette : Nat
  vram : Nat
  oam : Nat
  deriving DecidableEq, Repr

/-- The video unit with the memory the association protocol touches: the
addresses of its own regions (`video->palette`, `video->vram`, `&video->oam`),
whether VRAM is mapped, and the renderer objects by identity. -/
structure VideoUnit where
  video : GBAVideo
  palette : Nat
  vram : Nat
  oam : Nat
  vramMapped : Bool
  renderers : Nat → RendererRefs

/-- `GBAVideoAssociateRenderer` (lines 55-62). -/
def GBAVideoAssociateRenderer (unit : VideoUnit) (renderer : Nat) : VideoUnit × List Call :=
  let c1 := [Call.deinit unit.video.renderer]
  let unit := { unit with video := { unit.video with renderer := renderer } }
  let r := unit.renderers renderer
  let r := { r with palette := unit.palette }
  let r := { r with vram := unit.vram }
  let r := { r with oam := unit.oam }
  let unit := { unit with renderers := Function.update unit.renderers renderer r }
  (unit, c1 ++ [Call.init unit.video.renderer])

/-- `GBAVideoDeinit` (lines 50-53): detach to the dummy renderer, then unmap
VRAM. -/
def GBAVideoDeinit (unit : VideoUnit) : VideoUnit × List Call :=
  let a := GBAVideoAssociateRenderer unit dummyRenderer
  ({ a.1 with vramMapped := false }, a.2)

/-! ## Closed forms of the operations -/
theorem vcountSwitch_video (v : GBAVideo) (d : Bool) :
    (vcountSwitch v d).1 =
      { v with
        inVblank := if v.vcount = 160 then 1 else if v.vcount = 227 then 0 else v.inVblank
        nextVblankIRQ := if v.vcount = 160 then v.nextEvent + 280896 else v.nextVblankIRQ
        vcount := if v.vcount = 228 then 0 else v.vcount
        ioVCOUNT := if v.vcount = 228 then 0 else v.ioVCOUNT } := by
  unfold vcountSwitch
  simp only [VIDEO_VERTICAL_PIXELS, VIDEO_VERTICAL_TOTAL_PIXELS, VIDEO_TOTAL_LENGTH]
  by_cases h1 : v.vcount = 160
  · simp [h1]
  · by_cases h2 : v.vcount = 227
    · simp [h2]
    · by_cases h3 : v.vcount = 228
      · simp [h3]
      · simp [h1, h2, h3]

theorem vcounterCheck_video (v : GBAVideo) :
    (vcounterCheck v).1 =
      { v with
        vcounter := if v.vcount = v.vcountSetting then 1 else 0
        nextVcounterIRQ :=
          if v.vcount = v.vcountSetting ∧ v.vcounterIRQ ≠ 0 then v.nextVcounterIRQ + 280896
          else v.nextVcounterIRQ } := by
  unfold vcounterCheck
  simp only [VIDEO_TOTAL_LENGTH]
  by_cases h1 : v.vcount = v.vcountSetting <;> by_cases h2 : v.vcounterIRQ = 0 <;> simp [h1, h2]

theorem endHblank_video (v : GBAVideo) (d : Bool) :
    (endHblank v d).1 =
      { v with
        inHblank := 0
        nextEvent := v.nextHblank
        inVblank :=
          if v.vcount + 1 = 160 then 1 else if v.vcount + 1 = 227 then 0 else v.inVblank
        nextVblankIRQ :=
          if v.vcount + 1 = 160 then v.nextHblank + 280896 else v.nextVblankIRQ
        vcount := if v.vcount + 1 = 228 then 0 else v.vcount + 1
        ioVCOUNT := if v.vcount + 1 = 228 then 0 else (v.vcount + 1) % 65536
        vcounter :=
          if (if v.vcount + 1 = 228 then 0 else v.vcount + 1) = v.vcountSetting then 1 else 0
        nextVcounterIRQ :=
          if (if v.vcount + 1 = 228 then 0 else v.vcount + 1) = v.vcountSetting
              ∧ v.vcounterIRQ ≠ 0
          then v.nextVcounterIRQ + 280896 else v.nextVcounterIRQ } := by
  unfold endHblank
  simp only [vcounterCheck_video, vcountSwitch_video]


theorem beginHblank_video (v : GBAVideo) :
    (beginHblank v).1 =
      { v with
        inHblank := 1
        lastHblank := v.nextHblank
        nextEvent := v.nextHblank + 226
        nextHblank := v.nextHblank + 226 + 1006
        nextHblankIRQ := v.nextHblank + 226 + 1006 } := by
  simp only [beginHblank, VIDEO_HBLANK_LENGTH, VIDEO_HDRAW_LENGTH]

/-- Closed form of the structure after a call that performs a start-of-Hblank
transition. -/
theorem processEvents_begin_video (v : GBAVideo) (cycles : Int) (d : Bool)
    (h : v.nextEvent - cycles ≤ 0) (hb : v.inHblank = 0) :
    (GBAVideoProcessEvents v cycles d).video =
      { v with
        inHblank := 1
        lastHblank := v.nextHblank - v.eventDiff
        nextEvent := v.nextHblank - v.eventDiff + 226
        nextHblank := v.nextHblank - v.eventDiff + 226 + 1006
        nextHblankIRQ := v.nextHblank - v.eventDiff + 226 + 1006
        nextVcounterIRQ := v.nextVcounterIRQ - v.eventDiff
        eventDiff := v.nextHblank - v.eventDiff + 226 } := by
  unfold GBAVideoProcessEvents
  simp only [if_pos h, hb, ne_eq, not_true_eq_false, if_false, beginHblank_video]

/-- Closed form of the structure after a call that performs an end-of-Hblank
transition. -/
theorem processEvents_end_video (v : GBAVideo) (cycles : Int) (d : Bool)
    (h : v.nextEvent - cycles ≤ 0) (hb : v.inHblank ≠ 0) :
    (GBAVideoProcessEvents v cycles d).video =
      { v with
        inHblank := 0
        lastHblank := v.lastHblank - v.eventDiff
        nextEvent := v.nextHblank - v.eventDiff
        nextHblank := v.nextHblank - v.eventDiff
        nextHblankIRQ := v.nextHblankIRQ - v.eventDiff
        eventDiff := v.nextHblank - v.eventDiff
        inVblank :=
          if v.vcount + 1 = 160 then 1 else if v.vcount + 1 = 227 then 0 else v.inVblank
        nextVblankIRQ :=
          if v.vcount + 1 = 160 then v.nextHblank - v.eventDiff + 280896 else v.nextVblankIRQ
        vcount := if v.vcount + 1 = 228 then 0 else v.vcount + 1
        ioVCOUNT := if v.vcount + 1 = 228 then 0 else (v.vcount + 1) % 65536
        vcounter :=
          if (if v.vcount + 1 = 228 then 0 else v.vcount + 1) = v.vcountSetting then 1 else 0
        nextVcounterIRQ :=
          if (if v.vcount + 1 = 228 then 0 else v.vcount + 1) = v.vcountSetting
              ∧ v.vcounterIRQ ≠ 0
          then v.nextVcounterIRQ - v.eventDiff + 280896 else v.nextVcounterIRQ - v.eventDiff } := by
  unfold GBAVideoProcessEvents
  simp only [if_pos h, hb, ne_eq, not_false_eq_true, if_true, endHblank_video]

theorem processEvents_sub_video (v : GBAVideo) (cycles : Int) (d : Bool)
    (h : 0 < v.nextEvent - cycles) :
    (GBAVideoProcessEvents v cycles d).video = { v with nextEvent := v.nextEvent - cycles } := by
  unfold GBAVideoProcessEvents
  simp only
  rw [if_neg (by omega)]

theorem timed_init (v0 : GBAVideo) : Timed (GBAVideoInit v0) := by
  simp [Timed, GBAVideoInit, VIDEO_HDRAW_LENGTH]

theorem lined_init (v0 : GBAVideo) : Lined (GBAVideoInit v0) := by
  simp [Lined, GBAVideoInit]

theorem timed_process (v : GBAVideo) (cycles : Int) (d : Bool)
    (h : Timed v) (hc : 0 ≤ cycles) : Timed (GBAVideoProcessEvents v cycles d).video := by
  by_cases hs : 0 < v.nextEvent - cycles
  · rw [processEvents_sub_video v cycles d hs]
    rcases h with ⟨h1, h2, h3, h4, h5, h6, h7⟩ | ⟨h1, h2, h3, h4, h5, h6, h7⟩
    · exact Or.inl ⟨h1, by simpa using hs, by simp only; omega, h4, h5, h6, h7⟩
    · exact Or.inr ⟨h1, by simpa using hs, by simp only; omega, h4, h5, h6, h7⟩
  · have hs2 : v.nextEvent - cycles ≤ 0 := by omega
    rcases h with ⟨h1, h2, h3, h4, h5, h6, h7⟩ | ⟨h1, h2, h3, h4, h5, h6, h7⟩
    · rw [processEvents_begin_video v cycles d hs2 h1]
      unfold Timed
      right
      simp only [true_and]
      omega
    · rw [processEvents_end_video v cycles d hs2 (by omega)]
      unfold Timed
      left
      simp only [true_and]
      omega

theorem lined_process (v : GBAVideo) (cycles : Int) (d : Bool)
    (h : Lined v) (ht : Timed v) : Lined (GBAVideoProcessEvents v cycles d).video := by
  by_cases hs : 0 < v.nextEvent - cycles
  · rw [processEvents_sub_video v cycles d hs]
    exact h
  · have hs2 : v.nextEvent - cycles ≤ 0 := by omega
    obtain ⟨l1, l2, l3, l4, l5, l6⟩ := h
    rcases ht with ⟨h1, h2, h3, h4, h5, h6, h7⟩ | ⟨h1, h2, h3, h4, h5, h6, h7⟩
    · rw [processEvents_begin_video v cycles d hs2 h1]
      exact ⟨l1, l2, l3, l4, l5, l6⟩
    · rw [processEvents_end_video v cycles d hs2 (by omega)]
      unfold Lined
      simp only
      split_ifs <;> omega

theorem timed_write (v : GBAVideo) (value : Nat) (h : Timed v) :
    Timed (GBAVideoWriteDISPSTAT v value) := by
  unfold GBAVideoWriteDISPSTAT Timed
  simp only
  split_ifs <;> exact h

theorem lined_write (v : GBAVideo) (value : Nat) (h : Lined v) :
    Lined (GBAVideoWriteDISPSTAT v value) := by
  unfold GBAVideoWriteDISPSTAT Lined
  simp only
  split_ifs <;> exact h

theorem reachable_timed_lined (v : GBAVideo) (h : Reachable v) : Timed v ∧ Lined v := by
  induction h with
  | init v0 => exact ⟨timed_init v0, lined_init v0⟩
  | process v cycles d _ hc ih => exact ⟨timed_process v cycles d ih.1 hc, lined_process v cycles d ih.2 ih.1⟩
  | write v value _ _ ih => exact ⟨timed_write v value ih.1, lined_write v value ih.2⟩

theorem reachableB_reachable (v : GBAVideo) (h : ReachableB v) : Reachable v := by
  induction h with
  | init v0 => exact Reachable.init v0
  | process v cycles d _ hc _ ih => exact Reachable.process v cycles d ih hc
  | write v value _ hv ih => exact Reachable.write v value ih hv

theorem processEvents_sub_calls (v : GBAVideo) (cycles : Int) (d : Bool)
    (h : 0 < v.nextEvent - cycles) : (GBAVideoProcessEvents v cycles d).calls = [] := by
  unfold GBAVideoProcessEvents
  simp only
  rw [if_neg (by omega)]

theorem processEvents_begin_calls (v : GBAVideo) (cycles : Int) (d : Bool)
    (h : v.nextEvent - cycles ≤ 0) (hb : v.inHblank = 0) :
    (GBAVideoProcessEvents v cycles d).calls =
      (if v.vcount < 160 then [Call.GBAMemoryRunHblankDMAs] else [])
        ++ (if v.hblankIRQ ≠ 0 then [Call.GBARaiseIRQ IRQ.IRQ_HBLANK] else []) := by
  unfold GBAVideoProcessEvents
  simp only [if_pos h, hb, ne_eq, not_true_eq_false, if_false, beginHblank, VIDEO_VERTICAL_PIXELS]

theorem vcountSwitch_calls (v : GBAVideo) (d : Bool) :
    (vcountSwitch v d).2 =
      if v.vcount = 160 then
        [Call.GBASyncDrawingFrame]
          ++ (if d then [Call.finishFrame v.renderer] else [])
          ++ [Call.GBAMemoryRunVblankDMAs]
          ++ (if v.vblankIRQ ≠ 0 then [Call.GBARaiseIRQ IRQ.IRQ_VBLANK] else [])
          ++ [Call.GBASyncPostFrame]
      else [] := by
  unfold vcountSwitch
  simp only [VIDEO_VERTICAL_PIXELS, VIDEO_VERTICAL_TOTAL_PIXELS]
  split_ifs <;> rfl

theorem vcounterCheck_calls (v : GBAVideo) :
    (vcounterCheck v).2 =
      if v.vcount = v.vcountSetting ∧ v.vcounterIRQ ≠ 0 then [Call.GBARaiseIRQ IRQ.IRQ_VCOUNTER]
      else [] := by
  unfold vcounterCheck
  by_cases h1 : v.vcount = v.vcountSetting <;> by_cases h2 : v.vcounterIRQ = 0 <;> simp [h1, h2]

/-- The calls made by a call that performs an end-of-Hblank transition. -/
theorem processEvents_end_calls (v : GBAVideo) (cycles : Int) (d : Bool)
    (h : v.nextEvent - cycles ≤ 0) (hb : v.inHblank ≠ 0) :
    (GBAVideoProcessEvents v cycles d).calls =
      (if v.vcount + 1 = 160 then
        [Call.GBASyncDrawingFrame]
          ++ (if d then [Call.finishFrame v.renderer] else [])
          ++ [Call.GBAMemoryRunVblankDMAs]
          ++ (if v.vblankIRQ ≠ 0 then [Call.GBARaiseIRQ IRQ.IRQ_VBLANK] else [])
          ++ [Call.GBASyncPostFrame]
      else [])
      ++ (if (if v.vcount + 1 = 228 then 0 else v.vcount + 1) = v.vcountSetting
              ∧ v.vcounterIRQ ≠ 0
          then [Call.GBARaiseIRQ IRQ.IRQ_VCOUNTER] else [])
      ++ (if (if v.vcount + 1 = 228 then 0 else v.vcount + 1) < 160 then
          [Call.GBASyncDrawingFrame]
            ++ (if d then
                [Call.drawScanline v.renderer (if v.vcount + 1 = 228 then 0 else v.vcount + 1)]
              else [])
        else []) := by
  unfold GBAVideoProcessEvents
  simp only [if_pos h, hb, ne_eq, not_false_eq_true, if_true, endHblank, vcountSwitch_calls,
    vcounterCheck_calls, vcounterCheck_video, vcountSwitch_video, drawCheck,
    VIDEO_VERTICAL_PIXELS]

theorem processEvents_ret (v : GBAVideo) (cycles : Int) (d : Bool) :
    (GBAVideoProcessEvents v cycles d).ret = (GBAVideoProcessEvents v cycles d).video.nextEvent := by
  unfold GBAVideoProcessEvents
  simp only
  split_ifs <;> rfl

/-- Only the remaining budget matters: a call made after `a` cycles were
already subtracted behaves like one call with the cycles added up. -/
theorem processEvents_shift (v : GBAVideo) (a b : Int) (d : Bool) :
    GBAVideoProcessEvents { v with nextEvent := v.nextEvent - a } b d
      = GBAVideoProcessEvents v (a + b) d := by
  unfold GBAVideoProcessEvents endHblank beginHblank
  simp only [sub_sub]

theorem process_zero (sync : Nat → Bool) (s : Session) (h : Timed s.video) :
    Session.process sync s 0 = s := by
  have hpos : 0 < s.video.nextEvent - 0 := by
    rcases h with h | h <;> omega
  unfold Session.process
  simp only [processEvents_sub_video _ _ _ hpos, processEvents_sub_calls _ _ _ hpos]
  simp

theorem process_timed (sync : Nat → Bool) (s : Session) (c : Int) (h : Timed s.video)
    (hc : 0 ≤ c) : Timed (Session.process sync s c).video :=
  timed_process s.video c (sync s.asked) h hc

/-- The budget left after a compliant call covers whatever of the old budget
was not yet used. -/
theorem process_budget (sync : Nat → Bool) (s : Session) (a b : Int) (h : Timed s.video)
    (ha : 0 ≤ a) (hb : 0 ≤ b) (hab : a + b ≤ s.video.nextEvent) :
    b ≤ (Session.process sync s a).video.nextEvent := by
  have ht := process_timed sync s a h ha
  by_cases hs : 0 < s.video.nextEvent - a
  · simp only [Session.process, processEvents_sub_video _ _ _ hs]
    omega
  · have : b = 0 := by omega
    rcases ht with h | h <;> omega

/-- Splitting a compliant advance in two calls changes nothing. -/
theorem process_split (sync : Nat → Bool) (s : Session) (a b : Int) (h : Timed s.video)
    (ha : 0 ≤ a) (hb : 0 ≤ b) (hab : a + b ≤ s.video.nextEvent) :
    Session.process sync (Session.process sync s a) b = Session.process sync s (a + b) := by
  by_cases hs : 0 < s.video.nextEvent - a
  · have e : Session.process sync s a =
        { s with video := { s.video with nextEvent := s.video.nextEvent - a } } := by
      unfold Session.process
      simp only [processEvents_sub_video _ _ _ hs, processEvents_sub_calls _ _ _ hs]
      simp
    rw [e]
    unfold Session.process
    simp only [processEvents_shift]
  · have hb0 : b = 0 := by omega
    subst hb0
    rw [process_zero sync _ (process_timed sync s a h ha)]
    simp

theorem ticks_add (sync : Nat → Bool) (s : Session) (m n : Nat) :
    Session.ticks sync s (m + n) = Session.ticks sync (Session.ticks sync s m) n := by
  induction m generalizing s with
  | zero => simp [Session.ticks]
  | succ m ih =>
    rw [Nat.succ_add]
    simp only [Session.ticks]
    exact ih _

theorem ticks_timed (sync : Nat → Bool) (s : Session) (n : Nat) (h : Timed s.video) :
    Timed (Session.ticks sync s n).video := by
  induction n generalizing s with
  | zero => exact h
  | succ n ih => exact ih _ (process_timed sync s 1 h (by decide))

/-- A compliant call of `n` cycles is the same as `n` calls of one cycle. -/
theorem process_eq_ticks (sync : Nat → Bool) (n : Nat) (s : Session) (h : Timed s.video)
    (hn : (n : Int) ≤ s.video.nextEvent) :
    Session.process sync s n = Session.ticks sync s n := by
  induction n generalizing s with
  | zero => simpa [Session.ticks] using process_zero sync s h
  | succ n ih =>
    have h1 : (1 : Int) + n ≤ s.video.nextEvent := by push_cast at hn; omega
    have e := process_split sync s 1 n h (by decide) (by omega) h1
    have hb := process_budget sync s 1 n h (by decide) (by omega) h1
    simp only [Session.ticks]
    rw [← ih _ (process_timed sync s 1 h (by decide)) hb, e]
    congr 1
    push_cast
    ring

theorem compliant_sum_nonneg (sync : Nat → Bool) (l : List Int) (s : Session)
    (h : Compliant sync s l) : 0 ≤ l.sum := by
  induction l generalizing s with
  | nil => simp
  | cons c cs ih =>
    obtain ⟨h0, _, h2⟩ := h
    have := ih _ h2
    simp only [List.sum_cons]
    omega

/-- Every compliant sequence of calls is the same as stepping one cycle at a
time for as many cycles. -/
theorem run_eq_ticks (sync : Nat → Bool) (l : List Int) (s : Session) (h : Timed s.video)
    (hc : Compliant sync s l) : Session.run sync s l = Session.ticks sync s l.sum.toNat := by
  induction l generalizing s with
  | nil => simp [Session.run, Session.ticks]
  | cons c cs ih =>
    obtain ⟨h0, h1, h2⟩ := hc
    have hs := compliant_sum_nonneg sync cs _ h2
    have ec : ((c.toNat : Nat) : Int) = c := by omega
    have e2 : Session.process sync s c = Session.ticks sync s c.toNat := by
      have e3 := process_eq_ticks sync c.toNat s h (by omega)
      rwa [ec] at e3
    simp only [Session.run, List.sum_cons]
    rw [ih _ (process_timed sync s c h h0) h2]
    have : (c + cs.sum).toNat = c.toNat + cs.sum.toNat := by omega
    rw [this, ticks_add, e2]

theorem lineClock_range (v : GBAVideo) (h : Timed v) :
    0 ≤ lineClock v ∧ lineClock v < 1232 ∧
      (lineClock v < 1006 ↔ v.inHblank = 0) := by
  unfold lineClock
  rcases h with h | h
  · rw [if_pos h.1]; omega
  · rw [if_neg (by omega)]; omega

/-- A compliant call advances the position in the frame by `cycles`, wrapping
to 0 at the end of the frame. -/
theorem framePos_process (v : GBAVideo) (c : Int) (d : Bool) (ht : Timed v) (hl : Lined v)
    (h0 : 0 ≤ c) (h1 : c ≤ v.nextEvent) :
    framePos (GBAVideoProcessEvents v c d).video =
      if framePos v + c = 280896 then 0 else framePos v + c := by
  obtain ⟨l1, l2, -⟩ := hl
  by_cases hs : 0 < v.nextEvent - c
  · rw [processEvents_sub_video v c d hs]
    unfold framePos lineClock
    simp only
    rcases ht with h | h
    · rw [if_pos h.1, if_neg (by omega)]; omega
    · rw [if_neg (by omega), if_neg (by omega)]; omega
  · have hs2 : v.nextEvent - c ≤ 0 := by omega
    rcases ht with h | h
    · rw [processEvents_begin_video v c d hs2 h.1]
      unfold framePos lineClock
      simp only [one_ne_zero, if_false, if_pos h.1]
      rw [if_neg (by omega)]; omega
    · rw [processEvents_end_video v c d hs2 (by omega)]
      unfold framePos lineClock
      simp only [if_true, if_neg (show ¬ v.inHblank = 0 by omega)]
      split_ifs <;> omega

theorem run_timed_lined (sync : Nat → Bool) (l : List Int) (s : Session)
    (ht : Timed s.video) (hl : Lined s.video) (hc : Compliant sync s l) :
    Timed (Session.run sync s l).video ∧ Lined (Session.run sync s l).video := by
  induction l generalizing s with
  | nil => exact ⟨ht, hl⟩
  | cons c cs ih =>
    obtain ⟨h0, h1, h2⟩ := hc
    exact ih _ (process_timed sync s c ht h0) (lined_process _ _ _ hl ht) h2

/-- Without a frame wrap, a compliant run advances the frame position by the
sum of its cycles. -/
theorem framePos_run (sync : Nat → Bool) (l : List Int) (s : Session)
    (ht : Timed s.video) (hl : Lined s.video) (hc : Compliant sync s l)
    (hlt : framePos s.video + l.sum < 280896) :
    framePos (Session.run sync s l).video = framePos s.video + l.sum := by
  induction l generalizing s with
  | nil => simp [Session.run]
  | cons c cs ih =>
    obtain ⟨h0, h1, h2⟩ := hc
    have hs := compliant_sum_nonneg sync cs _ h2
    simp only [List.sum_cons] at hlt ⊢
    have e : framePos (Session.process sync s c).video = framePos s.video + c := by
      have := framePos_process s.video c (sync s.asked) ht hl h0 h1
      rw [if_neg (by omega)] at this
      exact this
    simp only [Session.run]
    rw [ih _ (process_timed sync s c ht h0) (lined_process _ _ _ hl ht) h2 (by omega), e]
    ring

/-- A state at a frame position that is a multiple of the scanline period is at
the very start of Hdraw of that scanline. -/
theorem at_line_start (v : GBAVideo) (k : Int) (ht : Timed v) (h : framePos v = k * 1232) :
    v.vcount = k ∧ v.inHblank = 0 ∧ v.nextEvent = 1006 := by
  have hr := lineClock_range v ht
  unfold framePos at h
  have hk : v.vcount = k := by omega
  have h0 : lineClock v = 0 := by omega
  refine ⟨hk, ?_, ?_⟩
  · exact hr.2.2.1 (by omega)
  · have hb : v.inHblank = 0 := hr.2.2.1 (by omega)
    unfold lineClock at h0
    rw [if_pos hb] at h0
    omega

theorem framePos_line_start (v : GBAVideo) (h0 : v.inHblank = 0) (h1 : v.nextEvent = 1006) :
    framePos v = v.vcount * 1232 := by
  unfold framePos lineClock
  rw [if_pos h0]; omega

theorem lineZero_reachableB : ReachableB lineZero :=
  ReachableB.process _ 226 false
    (ReachableB.process _ 1006 false (ReachableB.init blank) (by decide) (by decide))
    (by decide) (by decide)

theorem sum_lineSchedule (n : Nat) : (lineSchedule n).sum = 1232 * n := by
  induction n with
  | zero => simp [lineSchedule]
  | succ n ih =>
    simp only [lineSchedule, List.sum_cons, ih, VIDEO_HDRAW_LENGTH, VIDEO_HBLANK_LENGTH]
    push_cast
    ring

/-- From the start of Hdraw the schedule 1006, 226, 1006, 226, ... spends the
returned budget exactly, so it is budget compliant. -/
theorem compliant_lineSchedule (sync : Nat → Bool) (n : Nat) (s : Session)
    (ht : Timed s.video) (hb : s.video.inHblank = 0) (hn : s.video.nextEvent = 1006) :
    Compliant sync s (lineSchedule n) := by
  induction n generalizing s with
  | zero => trivial
  | succ n ih =>
    have hs1 : s.video.nextEvent - 1006 ≤ 0 := by omega
    have t1 := process_timed sync s 1006 ht (by decide)
    have e1 : (Session.process sync s 1006).video.inHblank = 1 ∧
        (Session.process sync s 1006).video.nextEvent = 226 := by
      rcases ht with h | h
      · simp only [Session.process, processEvents_begin_video _ _ _ hs1 hb]
        exact ⟨trivial, by omega⟩
      · omega
    have hs2 : (Session.process sync s 1006).video.nextEvent - 226 ≤ 0 := by omega
    have t2 := process_timed sync _ 226 t1 (by decide)
    have e2 : (Session.process sync (Session.process sync s 1006) 226).video.inHblank = 0 ∧
        (Session.process sync (Session.process sync s 1006) 226).video.nextEvent = 1006 := by
      rcases t1 with h | h
      · omega
      · generalize Session.process sync s 1006 = s1 at *
        simp only [Session.process, processEvents_end_video _ _ _ hs2 (by omega : s1.video.inHblank ≠ 0)]
        exact ⟨trivial, by omega⟩
    refine ⟨by decide, by simp only [VIDEO_HDRAW_LENGTH]; omega, by decide, ?_, ?_⟩
    · simp only [VIDEO_HDRAW_LENGTH, VIDEO_HBLANK_LENGTH]; omega
    · exact ih _ t2 e2.1 e2.2

theorem idle_run (sync : Nat → Bool) (l : List Int) (s : Session) (ht : Timed s.video)
    (hc : Compliant sync s l) (hsum : l.sum = 0) :
    Session.run sync s l = s ∧
      scanlines sync s l = List.replicate l.length s.video.vcount := by
  induction l generalizing s with
  | nil => simp [Session.run, scanlines]
  | cons c cs ih =>
    obtain ⟨h0, h1, h2⟩ := hc
    have hs := compliant_sum_nonneg sync cs _ h2
    simp only [List.sum_cons] at hsum
    have hc0 : c = 0 := by omega
    subst hc0
    have e := process_zero sync s ht
    rw [e] at h2
    have := ih s ht h2 (by omega)
    simp only [Session.run, scanlines, e, this, List.length_cons, List.replicate_succ, and_self]

theorem destutter_replicate (a : Int) (n : Nat) :
    List.destutter' (· ≠ ·) a (List.replicate n a) = [a] := by
  induction n with
  | zero => rfl
  | succ n ih =>
    rw [List.replicate_succ, List.destutter'_cons_neg _ (by simp)]
    exact ih

/-- From any point of a frame, a compliant run to the end of the frame shows
the remaining scanlines in order, then scanline 0 of the next frame. -/
theorem frame_tail (sync : Nat → Bool) (l : List Int) (s : Session) (k : Nat)
    (ht : Timed s.video) (hl : Lined s.video) (hc : Compliant sync s l)
    (hk : s.video.vcount = k) (hsum : framePos s.video + l.sum = 280896) :
    List.destutter' (· ≠ ·) (k : Int) (scanlines sync s l)
        = (List.range' k (228 - k)).map (fun i : Nat => (i : Int)) ++ [0] ∧
      framePos (Session.run sync s l).video = 0 := by
  induction l generalizing s k with
  | nil =>
    exfalso
    have hr := lineClock_range s.video ht
    obtain ⟨l1, l2, -⟩ := hl
    unfold framePos at hsum
    simp only [List.sum_nil] at hsum
    omega
  | cons c cs ih =>
    obtain ⟨h0, h1, h2⟩ := hc
    have hs := compliant_sum_nonneg sync cs _ h2
    have ht1 := process_timed sync s c ht h0
    have hl1 : Lined (Session.process sync s c).video := lined_process _ _ _ hl ht
    have hp : framePos (Session.process sync s c).video =
        if framePos s.video + c = 280896 then 0 else framePos s.video + c :=
      framePos_process s.video c (sync s.asked) ht hl h0 h1
    have hr := lineClock_range s.video ht
    have hr1 := lineClock_range _ ht1
    have hkl : s.video.vcount ≤ 227 := hl.2.1
    have hfp : framePos s.video = s.video.vcount * 1232 + lineClock s.video := rfl
    have hfp1 : framePos (Session.process sync s c).video =
        (Session.process sync s c).video.vcount * 1232
          + lineClock (Session.process sync s c).video := rfl
    have hbud : lineClock s.video + s.video.nextEvent ≤ 1232 := by
      unfold lineClock
      split_ifs <;> omega
    simp only [List.sum_cons] at hsum
    simp only [scanlines, Session.run]
    by_cases hw : framePos s.video + c = 280896
    · rw [if_pos hw] at hp
      have hz := at_line_start _ 0 ht1 (by rw [hp]; ring)
      have hidle := idle_run sync cs _ ht1 h2 (by omega)
      have hk227 : k = 227 := by omega
      subst hk227
      rw [hidle.1, hidle.2, hz.1, hp]
      rw [List.destutter'_cons_pos _ (by decide), destutter_replicate]
      exact ⟨by decide, rfl⟩
    · rw [if_neg hw] at hp
      have hcase : (Session.process sync s c).video.vcount = k ∨
          (Session.process sync s c).video.vcount = ((k + 1 : Nat) : Int) := by
        push_cast
        omega
      rcases hcase with hsame | hnext
      · have := ih _ k ht1 hl1 h2 hsame (by omega)
        rw [hsame, List.destutter'_cons_neg _ (by simp)]
        exact this
      · have hk1 : k + 1 < 228 := by omega
        have := ih _ (k + 1) ht1 hl1 h2 hnext (by omega)
        rw [hnext, List.destutter'_cons_pos _ (by push_cast; omega), this.1]
        refine ⟨?_, this.2⟩
        have e : 228 - k = (228 - (k + 1)) + 1 := by omega
        rw [e, List.range'_succ]
        simp


theorem lineClock_budget (v : GBAVideo) (ht : Timed v) : lineClock v + v.nextEvent ≤ 1232 := by
  unfold lineClock
  rcases ht with h | h
  · rw [if_pos h.1]; omega
  · rw [if_neg (by omega)]; omega

/-- One compliant call inside the stretch from scanline 0 to the first vblank
scanline: which of the counted calls it makes. -/
theorem stretch_step (v : GBAVideo) (c : Int) (d : Bool) (ht : Timed v)
    (h1 : c ≤ v.nextEvent) (hle : framePos v + c ≤ 197120) :
    (GBAVideoProcessEvents v c d).calls.count (Call.GBARaiseIRQ IRQ.IRQ_VBLANK) =
        (if framePos v + c = 197120 ∧ framePos v < 197120 ∧ v.vblankIRQ ≠ 0 then 1 else 0) ∧
    (GBAVideoProcessEvents v c d).calls.countP Call.isFinishFrame =
        (if framePos v + c = 197120 ∧ framePos v < 197120 ∧ d = true then 1 else 0) ∧
    (((GBAVideoProcessEvents v c d).calls.count Call.GBASyncDrawingFrame : Nat) : Int) =
        (GBAVideoProcessEvents v c d).video.vcount - v.vcount ∧
    (GBAVideoProcessEvents v c d).video.vblankIRQ = v.vblankIRQ := by
  have hr := lineClock_range v ht
  have hbud := lineClock_budget v ht
  have hfp : framePos v = v.vcount * 1232 + lineClock v := rfl
  have hclk : lineClock v = if v.inHblank = 0 then 1006 - v.nextEvent else 1232 - v.nextEvent := rfl
  by_cases hs : 0 < v.nextEvent - c
  · rw [processEvents_sub_video v c d hs, processEvents_sub_calls v c d hs]
    have hne : ¬ (framePos v + c = 197120 ∧ framePos v < 197120) := by
      split_ifs at hclk <;> omega
    have e1 : ¬ (framePos v + c = 197120 ∧ framePos v < 197120 ∧ v.vblankIRQ ≠ 0) :=
      fun h => hne ⟨h.1, h.2.1⟩
    have e2 : ¬ (framePos v + c = 197120 ∧ framePos v < 197120 ∧ d = true) :=
      fun h => hne ⟨h.1, h.2.1⟩
    rw [if_neg e1, if_neg e2]
    simp
  · have hs2 : v.nextEvent - c ≤ 0 := by omega
    rcases ht with h | h
    · rw [processEvents_begin_video v c d hs2 h.1, processEvents_begin_calls v c d hs2 h.1]
      have hne : ¬ (framePos v + c = 197120 ∧ framePos v < 197120) := by
        rw [if_pos h.1] at hclk; omega
      have e1 : ¬ (framePos v + c = 197120 ∧ framePos v < 197120 ∧ v.vblankIRQ ≠ 0) :=
        fun h => hne ⟨h.1, h.2.1⟩
      have e2 : ¬ (framePos v + c = 197120 ∧ framePos v < 197120 ∧ d = true) :=
        fun h => hne ⟨h.1, h.2.1⟩
      rw [if_neg e1, if_neg e2]
      split_ifs <;> simp [Call.isFinishFrame]
    · have hb : v.inHblank ≠ 0 := by omega
      rw [processEvents_end_video v c d hs2 hb, processEvents_end_calls v c d hs2 hb]
      rw [if_neg hb] at hclk
      have hn228 : ¬ v.vcount + 1 = 228 := by omega
      simp only [if_neg hn228]
      by_cases h160 : v.vcount + 1 = 160
      · have hx : framePos v + c = 197120 ∧ framePos v < 197120 := by omega
        have hlt : ¬ v.vcount + 1 < 160 := by omega
        simp only [if_pos h160, if_neg hlt, hx, true_and]
        cases d <;> by_cases hq : v.vblankIRQ = 0 <;>
          by_cases hm : v.vcount + 1 = v.vcountSetting ∧ v.vcounterIRQ ≠ 0 <;>
          simp [hq, hm, Call.isFinishFrame] <;> omega
      · have hx : ¬ (framePos v + c = 197120 ∧ framePos v < 197120) := by omega
        have e1 : ¬ (framePos v + c = 197120 ∧ framePos v < 197120 ∧ v.vblankIRQ ≠ 0) :=
          fun h => hx ⟨h.1, h.2.1⟩
        have e2 : ¬ (framePos v + c = 197120 ∧ framePos v < 197120 ∧ d = true) :=
          fun h => hx ⟨h.1, h.2.1⟩
        have hlt : v.vcount + 1 < 160 := by omega
        rw [if_neg e1, if_neg e2]
        simp only [if_neg h160, if_pos hlt]
        cases d <;>
          by_cases hm : v.vcount + 1 = v.vcountSetting ∧ v.vcounterIRQ ≠ 0 <;>
          simp [hm, Call.isFinishFrame] <;> omega

/-- A compliant run that ends exactly when scanline 160 begins raises the
vblank interrupt once if it is enabled and calls `finishFrame` once if the
pacing query made at that moment is answered with "drawing". -/
theorem stretch_run (sync : Nat → Bool) (l : List Int) (s : Session)
    (ht : Timed s.video) (hl : Lined s.video) (hc : Compliant sync s l)
    (hsum : framePos s.video + l.sum = 197120) :
    (Session.run sync s l).log.count (Call.GBARaiseIRQ IRQ.IRQ_VBLANK) =
        s.log.count (Call.GBARaiseIRQ IRQ.IRQ_VBLANK)
          + (if framePos s.video < 197120 ∧ s.video.vblankIRQ ≠ 0 then 1 else 0) ∧
    (Session.run sync s l).log.countP Call.isFinishFrame =
        s.log.countP Call.isFinishFrame
          + (if framePos s.video < 197120
                ∧ sync (s.asked + (159 - s.video.vcount).toNat) = true then 1 else 0) := by
  induction l generalizing s with
  | nil =>
    simp only [List.sum_nil, add_zero] at hsum
    simp [Session.run, hsum]
  | cons c cs ih =>
    obtain ⟨h0, h1, h2⟩ := hc
    have hs := compliant_sum_nonneg sync cs _ h2
    simp only [List.sum_cons] at hsum
    have ht1 := process_timed sync s c ht h0
    have hl1 : Lined (Session.process sync s c).video := lined_process _ _ _ hl ht
    have hp : framePos (Session.process sync s c).video = framePos s.video + c := by
      have := framePos_process s.video c (sync s.asked) ht hl h0 h1
      rw [if_neg (by omega)] at this
      exact this
    obtain ⟨k1, k2, k3, k4⟩ := stretch_step s.video c (sync s.asked) ht h1 (by omega)
    obtain ⟨i1, i2⟩ := ih _ ht1 hl1 h2 (by omega)
    have hr := lineClock_range s.video ht
    have hr1 := lineClock_range _ ht1
    have hbud := lineClock_budget s.video ht
    have hfp : framePos s.video = s.video.vcount * 1232 + lineClock s.video := rfl
    have hfp1 : framePos (Session.process sync s c).video =
        (Session.process sync s c).video.vcount * 1232
          + lineClock (Session.process sync s c).video := rfl
    have hlog : (Session.process sync s c).log =
        s.log ++ (GBAVideoProcessEvents s.video c (sync s.asked)).calls := rfl
    have hask : (Session.process sync s c).asked =
        s.asked + (GBAVideoProcessEvents s.video c (sync s.asked)).calls.count
          Call.GBASyncDrawingFrame := rfl
    have hvid : (Session.process sync s c).video =
        (GBAVideoProcessEvents s.video c (sync s.asked)).video := rfl
    simp only [Session.run]
    rw [hvid] at hp hfp1 hr1
    rw [i1, i2, hlog, List.count_append, List.countP_append, k1, k2, hvid, hp, k4]
    constructor
    · split_ifs <;> omega
    · by_cases hx : framePos s.video + c = 197120
      · have e159 : (159 - s.video.vcount).toNat = 0 := by omega
        rw [e159, Nat.add_zero]
        have : ¬ (framePos s.video + c < 197120 ∧
            sync ((Session.process sync s c).asked +
              (159 - (GBAVideoProcessEvents s.video c (sync s.asked)).video.vcount).toNat) = true) :=
          fun h => by omega
        rw [if_neg this]
        split_ifs <;> first | omega | (simp_all; done) | (simp_all; omega)
      · have eidx : (Session.process sync s c).asked +
              (159 - (GBAVideoProcessEvents s.video c (sync s.asked)).video.vcount).toNat
            = s.asked + (159 - s.video.vcount).toNat := by
          rw [hask]; omega
        rw [eidx]
        have : ¬ (framePos s.video + c = 197120 ∧ framePos s.video < 197120 ∧
            sync s.asked = true) := fun h => hx h.1
        rw [if_neg this]
        have hlt : framePos s.video + c < 197120 := by omega
        have hlt2 : framePos s.video < 197120 := by omega
        simp only [hlt, hlt2, true_and, Nat.add_zero, zero_add]

theorem run_reachableB (sync : Nat → Bool) (l : List Int) (s : Session)
    (hr : ReachableB s.video) (hc : Compliant sync s l) :
    ReachableB (Session.run sync s l).video := by
  induction l generalizing s with
  | nil => exact hr
  | cons c cs ih =>
    obtain ⟨h0, h1, h2⟩ := hc
    exact ih _ (ReachableB.process s.video c (sync s.asked) hr h0 h1) h2

theorem afterLines_reachableB (n : Nat) : ReachableB (afterLines n) :=
  run_reachableB _ _ _ (ReachableB.init blank)
    (compliant_lineSchedule alwaysDrawing n ⟨GBAVideoInit blank, 0, []⟩
      (reachable_timed_lined _ (Reachable.init blank)).1 rfl rfl)

/-- Within the first frame, `n` scanline periods after power-on scanline
`n - 1` has just begun. -/
theorem afterLines_line (n : Nat) (hn : n ≤ 228) :
    (afterLines n).vcount = (n : Int) - 1 ∧ (afterLines n).inHblank = 0 ∧
      (afterLines n).nextEvent = 1006 := by
  have hw := reachable_timed_lined _ (Reachable.init blank)
  have hc := compliant_lineSchedule alwaysDrawing n ⟨GBAVideoInit blank, 0, []⟩ hw.1 rfl rfl
  have hp0 : framePos (GBAVideoInit blank) = -1232 := by decide
  have hf := run_timed_lined alwaysDrawing _ ⟨GBAVideoInit blank, 0, []⟩ hw.1 hw.2 hc
  have hp := framePos_run alwaysDrawing _ ⟨GBAVideoInit blank, 0, []⟩ hw.1 hw.2 hc
    (by simp only [hp0, sum_lineSchedule]; omega)
  simp only [hp0, sum_lineSchedule] at hp
  exact at_line_start _ _ hf.1 (by unfold afterLines; rw [hp]; ring)

/-- The flags read by `GBAVideoReadDISPSTAT` are 0 or 1 in reachable states, so
the register is their weighted sum. -/
theorem readDISPSTAT_flags (v : GBAVideo) (h1 : v.inVblank = 0 ∨ v.inVblank = 1)
    (h2 : v.inHblank = 0 ∨ v.inHblank = 1) (h3 : v.vcounter = 0 ∨ v.vcounter = 1) :
    (GBAVideoReadDISPSTAT v : Int) = v.inVblank + 2 * v.inHblank + 4 * v.vcounter := by
  unfold GBAVideoReadDISPSTAT
  rcases h1 with h1 | h1 <;> rcases h2 with h2 | h2 <;> rcases h3 with h3 | h3 <;>
    rw [h1, h2, h3] <;> decide

theorem reachable_flags (v : GBAVideo) (hr : Reachable v) :
    (v.inVblank = 0 ∨ v.inVblank = 1) ∧ (v.inHblank = 0 ∨ v.inHblank = 1) ∧
      (v.vcounter = 0 ∨ v.vcounter = 1) := by
  have hw := reachable_timed_lined v hr
  refine ⟨hw.2.2.2.1, ?_, hw.2.2.2.2.1⟩
  rcases hw.1 with h | h
  · exact Or.inl h.1
  · exact Or.inr h.1

theorem latched_reachable (v : GBAVideo) (t : Int) (h : ReachableLatched v t) :
    Reachable v := by
  induction h with
  | init v0 => exact Reachable.init v0
  | process v t cycles d _ hc ih => exact Reachable.process v cycles d ih hc
  | write v t value _ hv ih => exact Reachable.write v value ih hv

/-- Scanline 227 is reached with `inVblank` already cleared. -/
theorem lastLine_facts :
    ReachableB lastLine ∧ lastLine.vcount = 227 ∧ lastLine.inVblank = 0 := by
  have hr : ReachableB lastLine := afterLines_reachableB 228
  have hl : lastLine.vcount = ((228 : Nat) : Int) - 1 := (afterLines_line 228 (by decide)).1
  have hv : lastLine.vcount = 227 := by rw [hl]; decide
  have hw := (reachable_timed_lined _ (reachableB_reachable _ hr)).2
  refine ⟨hr, hv, ?_⟩
  rcases hw.2.2.1 with h0 | h1
  · exact h0
  · have := hw.2.2.2.2.1.1 h1
    omega

/-- While the vcounter interrupt is disabled nothing re-arms its countdown:
every scanline period the rebase takes another 1232 cycles off it. -/
theorem vcounterIRQ_drift (sync : Nat → Bool) (n : Nat) (s : Session)
    (ht : Timed s.video) (hb : s.video.inHblank = 0) (hn : s.video.nextEvent = 1006)
    (hq : s.video.vcounterIRQ = 0) :
    (Session.run sync s (lineSchedule n)).video.nextVcounterIRQ
        = s.video.nextVcounterIRQ - 1232 * n ∧
      (Session.run sync s (lineSchedule n)).video.vcounterIRQ = 0 := by
  induction n generalizing s with
  | zero => simp [lineSchedule, Session.run, hq]
  | succ n ih =>
    simp only [lineSchedule, Session.run, VIDEO_HDRAW_LENGTH, VIDEO_HBLANK_LENGTH]
    have hs1 : s.video.nextEvent - 1006 ≤ 0 := by omega
    have t1 := process_timed sync s 1006 ht (by decide)
    have hd : s.video.eventDiff = 1006 := by rcases ht with h | h <;> omega
    have e1 : (Session.process sync s 1006).video.inHblank = 1 ∧
        (Session.process sync s 1006).video.nextEvent = 226 ∧
        (Session.process sync s 1006).video.eventDiff = 226 ∧
        (Session.process sync s 1006).video.vcounterIRQ = 0 ∧
        (Session.process sync s 1006).video.nextVcounterIRQ
          = s.video.nextVcounterIRQ - 1006 := by
      rcases ht with h | h
      · simp only [Session.process, processEvents_begin_video _ _ _ hs1 hb]
        exact ⟨trivial, by omega, by omega, hq, by omega⟩
      · omega
    generalize Session.process sync s 1006 = s1 at *
    have hs2 : s1.video.nextEvent - 226 ≤ 0 := by omega
    have hb1 : s1.video.inHblank ≠ 0 := by omega
    have t2 := process_timed sync s1 226 t1 (by decide)
    have e2 : (Session.process sync s1 226).video.inHblank = 0 ∧
        (Session.process sync s1 226).video.nextEvent = 1006 ∧
        (Session.process sync s1 226).video.vcounterIRQ = 0 ∧
        (Session.process sync s1 226).video.nextVcounterIRQ
          = s1.video.nextVcounterIRQ - 226 := by
      rcases t1 with h | h
      · omega
      · simp only [Session.process, processEvents_end_video _ _ _ hs2 hb1, e1.2.2.2.1,
          ne_eq, not_true_eq_false, and_false, if_false]
        exact ⟨trivial, by omega, trivial, by omega⟩
    have := ih (Session.process sync s1 226) t2 e2.1 e2.2.1 e2.2.2.1
    rw [this.1, this.2, e2.2.2.2, e1.2.2.2.2]
    refine ⟨?_, rfl⟩
    push_cast
    ring

/-- With DISPSTAT never written, `n` scanline periods after power-on the
vcounter countdown stands at `-1232 * n`. -/
theorem afterLines_drift (n : Nat) :
    (afterLines n).nextVcounterIRQ = -(1232 * (n : Int)) ∧ (afterLines n).vcounterIRQ = 0 := by
  have h := vcounterIRQ_drift alwaysDrawing n ⟨GBAVideoInit blank, 0, []⟩
    (reachable_timed_lined _ (Reachable.init blank)).1 rfl rfl rfl
  unfold afterLines
  refine ⟨?_, h.2⟩
  rw [h.1]
  simp [GBAVideoInit]

theorem and_bit_ne_zero (value i : Nat) :
    (((value &&& 2 ^ i : Nat) : Int) ≠ 0) ↔ value.testBit i = true := by
  rw [Nat.and_comm, Nat.two_pow_and]
  cases h : value.testBit i <;> simp

theorem high_byte (value : Nat) (h : value < 65536) :
    (value &&& 0xFF00) >>> 8 = value >>> 8 := by
  apply Nat.eq_of_testBit_eq
  intro j
  simp only [Nat.testBit_shiftRight, Nat.testBit_and]
  by_cases hj : j < 8
  · have : Nat.testBit 0xFF00 (8 + j) = true := by
      interval_cases j <;> decide
    simp [this]
  · have : value.testBit (8 + j) = false := by
      apply Nat.testBit_lt_two_pow
      calc value < 2 ^ 16 := h
        _ ≤ 2 ^ (8 + j) := Nat.pow_le_pow_right (by decide) (by omega)
    simp [this]

/-- One call asks the frame-pacing collaborator at most once, which is why a
single answer per call is enough. -/
theorem processEvents_asks_at_most_once (v : GBAVideo) (cycles : Int) (d : Bool) :
    (GBAVideoProcessEvents v cycles d).calls.count Call.GBASyncDrawingFrame ≤ 1 := by
  by_cases hs : 0 < v.nextEvent - cycles
  · rw [processEvents_sub_calls v cycles d hs]
    simp
  · have hs2 : v.nextEvent - cycles ≤ 0 := by omega
    by_cases hb : v.inHblank = 0
    · rw [processEvents_begin_calls v cycles d hs2 hb]
      split_ifs <;> simp
    · rw [processEvents_end_calls v cycles d hs2 hb]
      by_cases h160 : v.vcount + 1 = 160
      · have h228 : ¬ v.vcount + 1 = 228 := by omega
        have hlt : ¬ v.vcount + 1 < 160 := by omega
        simp only [if_pos h160, if_neg h228, if_neg hlt]
        split_ifs <;> simp
      · simp only [if_neg h160]
        split_ifs <;> simp

/-- The six countdowns other than `nextVcounterIRQ` stay within two frame
periods in every reachable state. -/
theorem other_countdowns_bounded (v : GBAVideo) (hr : Reachable v) :
    |v.lastHblank| ≤ 2 * VIDEO_TOTAL_LENGTH ∧ |v.nextHblank| ≤ 2 * VIDEO_TOTAL_LENGTH ∧
    |v.nextEvent| ≤ 2 * VIDEO_TOTAL_LENGTH ∧ |v.eventDiff| ≤ 2 * VIDEO_TOTAL_LENGTH ∧
    |v.nextHblankIRQ| ≤ 2 * VIDEO_TOTAL_LENGTH ∧ |v.nextVblankIRQ| ≤ 2 * VIDEO_TOTAL_LENGTH := by
  obtain ⟨ht, -, -, -, -, -, hv⟩ := reachable_timed_lined v hr
  simp only [VIDEO_TOTAL_LENGTH, abs_le]
  rcases ht with h | h <;> omega

theorem processEvents_keeps_settings (v : GBAVideo) (cycles : Int) (d : Bool) :
    (GBAVideoProcessEvents v cycles d).video.vblankIRQ = v.vblankIRQ ∧
    (GBAVideoProcessEvents v cycles d).video.hblankIRQ = v.hblankIRQ ∧
    (GBAVideoProcessEvents v cycles d).video.vcounterIRQ = v.vcounterIRQ ∧
    (GBAVideoProcessEvents v cycles d).video.vcountSetting = v.vcountSetting ∧
    (GBAVideoProcessEvents v cycles d).video.renderer = v.renderer := by
  by_cases hs : 0 < v.nextEvent - cycles
  · rw [processEvents_sub_video v cycles d hs]
    exact ⟨rfl, rfl, rfl, rfl, rfl⟩
  · have hs2 : v.nextEvent - cycles ≤ 0 := by omega
    by_cases hb : v.inHblank = 0
    · rw [processEvents_begin_video v cycles d hs2 hb]
      exact ⟨rfl, rfl, rfl, rfl, rfl⟩
    · rw [processEvents_end_video v cycles d hs2 hb]
      exact ⟨rfl, rfl, rfl, rfl, rfl⟩

/-- One compliant call before scanline `T` has begun: the vcounter interrupt is
raised exactly by the call that enters scanline `T`. -/
theorem vcounter_step (v : GBAVideo) (c : Int) (d : Bool) (T : Int) (ht : Timed v)
    (h1 : c ≤ v.nextEvent) (hT : T ≤ 227) (hlt : framePos v < T * 1232)
    (hle : framePos v + c ≤ T * 1232) (hset : v.vcountSetting = T)
    (hen : v.vcounterIRQ ≠ 0) :
    (GBAVideoProcessEvents v c d).calls.count (Call.GBARaiseIRQ IRQ.IRQ_VCOUNTER) =
      (if framePos v + c = T * 1232 then 1 else 0) := by
  have hr := lineClock_range v ht
  have hbud := lineClock_budget v ht
  have hfp : framePos v = v.vcount * 1232 + lineClock v := rfl
  have hclk : lineClock v = if v.inHblank = 0 then 1006 - v.nextEvent else 1232 - v.nextEvent := rfl
  by_cases hs : 0 < v.nextEvent - c
  · rw [processEvents_sub_calls v c d hs]
    have hne : ¬ framePos v + c = T * 1232 := by
      split_ifs at hclk <;> omega
    rw [if_neg hne]
    simp
  · have hs2 : v.nextEvent - c ≤ 0 := by omega
    rcases ht with h | h
    · rw [processEvents_begin_calls v c d hs2 h.1]
      have hne : ¬ framePos v + c = T * 1232 := by
        rw [if_pos h.1] at hclk; omega
      rw [if_neg hne]
      split_ifs <;> simp
    · have hb : v.inHblank ≠ 0 := by omega
      rw [processEvents_end_calls v c d hs2 hb]
      rw [if_neg hb] at hclk
      have hn228 : ¬ v.vcount + 1 = 228 := by omega
      simp only [if_neg hn228, hset]
      by_cases hm : v.vcount + 1 = T
      · have hx : framePos v + c = T * 1232 := by omega
        have hc : v.vcount + 1 = T ∧ v.vcounterIRQ ≠ 0 := ⟨hm, hen⟩
        rw [if_pos hx]
        simp only [if_pos hc]
        split_ifs <;> simp
      · have hx : ¬ framePos v + c = T * 1232 := by omega
        have hc : ¬ (v.vcount + 1 = T ∧ v.vcounterIRQ ≠ 0) := fun h => hm h.1
        rw [if_neg hx]
        simp only [if_neg hc]
        split_ifs <;> simp

/-- A compliant run that stays before or ends at the start of scanline `T`
raises the vcounter interrupt exactly when it reaches that start. -/
theorem vcounter_run (sync : Nat → Bool) (l : List Int) (s : Session) (T : Int)
    (ht : Timed s.video) (hl : Lined s.video) (hc : Compliant sync s l) (hT : T ≤ 227)
    (hlt : framePos s.video < T * 1232) (hle : framePos s.video + l.sum ≤ T * 1232)
    (hset : s.video.vcountSetting = T) (hen : s.video.vcounterIRQ ≠ 0) :
    (Session.run sync s l).log.count (Call.GBARaiseIRQ IRQ.IRQ_VCOUNTER) =
      s.log.count (Call.GBARaiseIRQ IRQ.IRQ_VCOUNTER)
        + (if framePos s.video + l.sum = T * 1232 then 1 else 0) := by
  induction l generalizing s with
  | nil =>
    simp only [List.sum_nil, add_zero, Session.run]
    rw [if_neg (by omega)]
    rfl
  | cons c cs ih =>
    obtain ⟨h0, h1, h2⟩ := hc
    have hs := compliant_sum_nonneg sync cs _ h2
    simp only [List.sum_cons] at hle ⊢
    have ht1 := process_timed sync s c ht h0
    have hl1 : Lined (Session.process sync s c).video := lined_process _ _ _ hl ht
    have hp : framePos (Session.process sync s c).video = framePos s.video + c := by
      have := framePos_process s.video c (sync s.asked) ht hl h0 h1
      rw [if_neg (by omega)] at this
      exact this
    have hk := vcounter_step s.video c (sync s.asked) T ht h1 hT hlt (by omega) hset hen
    have hkeep := processEvents_keeps_settings s.video c (sync s.asked)
    have hlog : (Session.process sync s c).log =
        s.log ++ (GBAVideoProcessEvents s.video c (sync s.asked)).calls := rfl
    simp only [Session.run]
    by_cases hx : framePos s.video + c = T * 1232
    · have hidle := idle_run sync cs _ ht1 h2 (by omega)
      rw [hidle.1, hlog, List.count_append, hk, if_pos hx, if_pos (by omega)]
    · have hen1 : (Session.process sync s c).video.vcounterIRQ ≠ 0 := fun h =>
        hen (hkeep.2.2.1.symm.trans h)
      rw [ih _ ht1 hl1 h2 (by omega) (by omega) (hkeep.2.2.2.1.trans hset) hen1,
        hlog, List.count_append, hk, if_neg hx, hp]
      have : framePos s.video + c + cs.sum = framePos s.video + (c + cs.sum) := by ring
      rw [this]
      omega

/-- The value `GBAVideoWriteDISPSTAT` stores in `nextVcounterIRQ` when bit 5 of
the written value is set (lines 138-144). -/
theorem writeDISPSTAT_recomputes_vcounterIRQ_aux (video : GBAVideo) (value : Nat)
    (h : value < 65536) (h5 : value.testBit 5 = true) :
    (GBAVideoWriteDISPSTAT video value).nextVcounterIRQ =
      if video.nextHblank + 226 + (((value >>> 8 : Nat) : Int) - video.vcount) * 1232
          ≥ video.nextEvent
      then video.nextHblank + 226 + (((value >>> 8 : Nat) : Int) - video.vcount) * 1232
      else video.nextHblank + 226 + (((value >>> 8 : Nat) : Int) - video.vcount) * 1232
        + 280896 := by
  have e5 : ((value &&& 0x0020 : Nat) : Int) ≠ 0 := (and_bit_ne_zero value 5).2 h5
  have e8 := high_byte value h
  unfold GBAVideoWriteDISPSTAT
  simp only [VIDEO_HBLANK_LENGTH, VIDEO_HORIZONTAL_LENGTH, VIDEO_TOTAL_LENGTH]
  rw [if_pos e5, e8]
  split_ifs <;> first | rfl | omega

theorem outcome_ext (o1 o2 : Outcome) (hv : o1.video = o2.video) (hr : o1.ret = o2.ret)
    (hc : o1.calls = o2.calls) : o1 = o2 := by
  cases o1
  cases o2
  simp only [Outcome.mk.injEq]
  exact ⟨hv, hr, hc⟩

/-- Once the budget is used up the outcome no longer depends on `cycles`. -/
theorem processEvents_overshoot (v : GBAVideo) (c1 c2 : Int) (d : Bool)
    (h1 : v.nextEvent - c1 ≤ 0) (h2 : v.nextEvent - c2 ≤ 0) :
    GBAVideoProcessEvents v c1 d = GBAVideoProcessEvents v c2 d := by
  have hv : (GBAVideoProcessEvents v c1 d).video = (GBAVideoProcessEvents v c2 d).video := by
    by_cases hb : v.inHblank = 0
    · rw [processEvents_begin_video v c1 d h1 hb, processEvents_begin_video v c2 d h2 hb]
    · rw [processEvents_end_video v c1 d h1 hb, processEvents_end_video v c2 d h2 hb]
  apply outcome_ext _ _ hv
  · rw [processEvents_ret, processEvents_ret, hv]
  · by_cases hb : v.inHblank = 0
    · rw [processEvents_begin_calls v c1 d h1 hb, processEvents_begin_calls v c2 d h2 hb]
    · rw [processEvents_end_calls v c1 d h1 hb, processEvents_end_calls v c2 d h2 hb]

/-- A call that uses up the budget is the rebase of lines 67-70 followed by
the phase dispatch and the update of `eventDiff` (line 127). -/
theorem processEvents_transition (v : GBAVideo) (cycles : Int) (d : Bool)
    (h : v.nextEvent - cycles ≤ 0) :
    GBAVideoProcessEvents v cycles d =
      (if (rebase { v with nextEvent := v.nextEvent - cycles }).inHblank ≠ 0 then
        { video := { (endHblank (rebase { v with nextEvent := v.nextEvent - cycles }) d).1 with
            eventDiff :=
              (endHblank (rebase { v with nextEvent := v.nextEvent - cycles }) d).1.nextEvent }
          ret := (endHblank (rebase { v with nextEvent := v.nextEvent - cycles }) d).1.nextEvent
          calls := (endHblank (rebase { v with nextEvent := v.nextEvent - cycles }) d).2 }
      else
        { video := { (beginHblank (rebase { v with nextEvent := v.nextEvent - cycles })).1 with
            eventDiff :=
              (beginHblank (rebase { v with nextEvent := v.nextEvent - cycles })).1.nextEvent }
          ret := (beginHblank (rebase { v with nextEvent := v.nextEvent - cycles })).1.nextEvent
          calls := (beginHblank (rebase { v with nextEvent := v.nextEvent - cycles })).2 }) := by
  unfold GBAVideoProcessEvents rebase
  simp only [if_pos h]
  split_ifs <;> rfl

/-- Driven by the returned budget from the start of a scanline below 160, each
scanline period issues exactly one Hblank DMA trigger as long as the scanline
stays below 160; the pre-roll scanline -1 is counted like the others. -/
theorem hblankDMA_lineSchedule (sync : Nat → Bool) (n : Nat) (s : Session)
    (ht : Timed s.video) (hb : s.video.inHblank = 0) (hn : s.video.nextEvent = 1006)
    (hv : s.video.vcount + n ≤ 160) :
    (Session.run sync s (lineSchedule n)).log.count Call.GBAMemoryRunHblankDMAs
        = s.log.count Call.GBAMemoryRunHblankDMAs + n ∧
      (Session.run sync s (lineSchedule n)).video.vcount = s.video.vcount + n := by
  induction n generalizing s with
  | zero => simp [lineSchedule, Session.run]
  | succ n ih =>
    simp only [lineSchedule, Session.run, VIDEO_HDRAW_LENGTH, VIDEO_HBLANK_LENGTH]
    push_cast at hv
    have hs1 : s.video.nextEvent - 1006 ≤ 0 := by omega
    have t1 := process_timed sync s 1006 ht (by decide)
    have e1 : (Session.process sync s 1006).video.inHblank = 1 ∧
        (Session.process sync s 1006).video.nextEvent = 226 ∧
        (Session.process sync s 1006).video.vcount = s.video.vcount ∧
        (Session.process sync s 1006).log.count Call.GBAMemoryRunHblankDMAs
          = s.log.count Call.GBAMemoryRunHblankDMAs + 1 := by
      rcases ht with h | h
      · simp only [Session.process, processEvents_begin_video _ _ _ hs1 hb,
          processEvents_begin_calls _ _ _ hs1 hb, List.count_append]
        refine ⟨trivial, by omega, trivial, ?_⟩
        rw [if_pos (by omega)]
        split_ifs <;> simp
      · omega
    generalize Session.process sync s 1006 = s1 at *
    have hs2 : s1.video.nextEvent - 226 ≤ 0 := by omega
    have hb1 : s1.video.inHblank ≠ 0 := by omega
    have t2 := process_timed sync s1 226 t1 (by decide)
    have hn228 : ¬ s1.video.vcount + 1 = 228 := by omega
    have e2 : (Session.process sync s1 226).video.inHblank = 0 ∧
        (Session.process sync s1 226).video.nextEvent = 1006 ∧
        (Session.process sync s1 226).video.vcount = s1.video.vcount + 1 ∧
        (Session.process sync s1 226).log.count Call.GBAMemoryRunHblankDMAs
          = s1.log.count Call.GBAMemoryRunHblankDMAs := by
      rcases t1 with h | h
      · omega
      · simp only [Session.process, processEvents_end_video _ _ _ hs2 hb1,
          processEvents_end_calls _ _ _ hs2 hb1, List.count_append, if_neg hn228]
        refine ⟨trivial, by omega, trivial, ?_⟩
        split_ifs <;> simp
    have := ih (Session.process sync s1 226) t2 e2.1 e2.2.1 (by omega)
    rw [this.1, this.2, e2.2.2.2, e2.2.2.1, e1.2.2.2, e1.2.2.1]
    constructor
    · omega
    · push_cast; ring

theorem vblankBlock_counts (r : Nat) (d : Bool) (q : Int) (y : Int) :
    ([Call.GBASyncDrawingFrame]
        ++ (if d then [Call.finishFrame r] else [])
        ++ [Call.GBAMemoryRunVblankDMAs]
        ++ (if q ≠ 0 then [Call.GBARaiseIRQ IRQ.IRQ_VBLANK] else [])
        ++ [Call.GBASyncPostFrame]).countP Call.isFinishFrame = (if d = true then 1 else 0) ∧
    ([Call.GBASyncDrawingFrame]
        ++ (if d then [Call.finishFrame r] else [])
        ++ [Call.GBAMemoryRunVblankDMAs]
        ++ (if q ≠ 0 then [Call.GBARaiseIRQ IRQ.IRQ_VBLANK] else [])
        ++ [Call.GBASyncPostFrame]).countP (Call.isDrawScanline y) = 0 := by
  cases d <;> by_cases hq : q = 0 <;> simp [hq, Call.isFinishFrame, Call.isDrawScanline]

theorem vcounterBlock_counts (p : Prop) [Decidable p] (y : Int) :
    (if p then [Call.GBARaiseIRQ IRQ.IRQ_VCOUNTER] else []).countP Call.isFinishFrame = 0 ∧
    (if p then [Call.GBARaiseIRQ IRQ.IRQ_VCOUNTER] else []).countP (Call.isDrawScanline y)
      = 0 := by
  by_cases hp : p <;> simp [hp, Call.isFinishFrame, Call.isDrawScanline]

theorem drawBlock_counts (r : Nat) (d : Bool) (x y : Int) :
    (if x < 160 then
        [Call.GBASyncDrawingFrame] ++ (if d then [Call.drawScanline r x] else [])
      else []).countP Call.isFinishFrame = 0 ∧
    (if x < 160 then
        [Call.GBASyncDrawingFrame] ++ (if d then [Call.drawScanline r x] else [])
      else []).countP (Call.isDrawScanline y)
      = (if x = y ∧ y < 160 ∧ d = true then 1 else 0) := by
  by_cases hlt : x < 160
  · rw [if_pos hlt]
    cases d
    · simp [Call.isFinishFrame, Call.isDrawScanline]
    · by_cases hxy : x = y
      · subst hxy
        simp [hlt, Call.isFinishFrame, Call.isDrawScanline]
      · simp [hxy, Call.isFinishFrame, Call.isDrawScanline]
  · rw [if_neg hlt]
    have : ¬ (x = y ∧ y < 160 ∧ d = true) := fun h => hlt (h.1 ▸ h.2.1)
    simp [this]

/-- Which renderer calls one call makes, for every structure: `finishFrame`
once when the call ends Hblank into scanline 160 and the frame is drawn;
`drawScanline y` once when it ends Hblank into scanline `y < 160` and the frame
is drawn; nothing else. -/
theorem renderer_calls_step (v : GBAVideo) (cycles : Int) (d : Bool) (y : Int) :
    (GBAVideoProcessEvents v cycles d).calls.countP Call.isFinishFrame =
      (if v.nextEvent - cycles ≤ 0 ∧ v.inHblank ≠ 0 ∧
          (GBAVideoProcessEvents v cycles d).video.vcount = 160 ∧ d = true
        then 1 else 0) ∧
    (GBAVideoProcessEvents v cycles d).calls.countP (Call.isDrawScanline y) =
      (if v.nextEvent - cycles ≤ 0 ∧ v.inHblank ≠ 0 ∧
          (GBAVideoProcessEvents v cycles d).video.vcount = y ∧ y < 160 ∧ d = true
        then 1 else 0) := by
  by_cases hs : 0 < v.nextEvent - cycles
  · have hn : ¬ v.nextEvent - cycles ≤ 0 := by omega
    rw [processEvents_sub_calls v cycles d hs]
    simp [hn]
  · have hs2 : v.nextEvent - cycles ≤ 0 := by omega
    by_cases hb : v.inHblank = 0
    · rw [processEvents_begin_calls v cycles d hs2 hb]
      simp only [hb, ne_eq, not_true_eq_false, false_and, and_false, if_false]
      constructor <;> split_ifs <;> simp [Call.isFinishFrame, Call.isDrawScanline]
    · have hb2 : v.inHblank ≠ 0 := hb
      rw [processEvents_end_video v cycles d hs2 hb, processEvents_end_calls v cycles d hs2 hb]
      simp only [hs2, hb2, true_and]
      generalize hx : (if v.vcount + 1 = 228 then (0 : Int) else v.vcount + 1) = x
      have hC := vcounterBlock_counts (x = v.vcountSetting ∧ v.vcounterIRQ ≠ 0) y
      have hD := drawBlock_counts v.renderer d x y
      by_cases h160 : v.vcount + 1 = 160
      · have hx160 : x = 160 := by
          rw [if_neg (by omega)] at hx; omega
        have hV := vblankBlock_counts v.renderer d v.vblankIRQ y
        simp only [List.countP_append] at hV hC hD ⊢
        rw [if_pos h160]
        simp only [List.countP_append]
        rw [hV.1, hV.2, hC.1, hC.2, hD.1, hD.2]
        constructor
        · simp [hx160, hb2]
        · have hy : ¬ (x = y ∧ y < 160 ∧ d = true) := fun h => by omega
          simp [hy]
      · have hx160 : ¬ x = 160 := by
          split_ifs at hx <;> omega
        rw [if_neg h160]
        simp only [List.countP_append, List.countP_nil, Nat.zero_add]
        rw [hC.1, hC.2, hD.1, hD.2]
        constructor
        · simp [hx160]
        · simp [hb2]

theorem processEvents_vcount_nonneg (v : GBAVideo) (cycles : Int) (d : Bool)
    (h : 0 ≤ v.vcount) : 0 ≤ (GBAVideoProcessEvents v cycles d).video.vcount := by
  by_cases hs : 0 < v.nextEvent - cycles
  · rw [processEvents_sub_video v cycles d hs]
    exact h
  · have hs2 : v.nextEvent - cycles ≤ 0 := by omega
    by_cases hb : v.inHblank = 0
    · rw [processEvents_begin_video v cycles d hs2 hb]
      exact h
    · rw [processEvents_end_video v cycles d hs2 hb]
      simp only
      split_ifs <;> omega

/-- Entering scanline `y`, read off the position in the frame: a compliant call
ends Hblank into scanline `y` exactly when the position passes `y * 1232`,
counting the wrap at the end of the frame as passing 0. -/
theorem enter_line_step (v : GBAVideo) (c : Int) (d : Bool) (y : Int) (ht : Timed v)
    (hl : Lined v) (h0 : 0 ≤ c) (h1 : c ≤ v.nextEvent) (hy0 : 0 ≤ y) (hy1 : y ≤ 227) :
    (if v.nextEvent - c ≤ 0 ∧ v.inHblank ≠ 0 ∧
        (GBAVideoProcessEvents v c d).video.vcount = y then (1 : Int) else 0) =
      (framePos (GBAVideoProcessEvents v c d).video - y * 1232) / 280896
        - (framePos v - y * 1232) / 280896
        + (if framePos v + c = 280896 then 1 else 0) := by
  have hp := framePos_process v c d ht hl h0 h1
  have hr := lineClock_range v ht
  have hbud := lineClock_budget v ht
  have hfp : framePos v = v.vcount * 1232 + lineClock v := rfl
  have hclk : lineClock v = if v.inHblank = 0 then 1006 - v.nextEvent else 1232 - v.nextEvent := rfl
  obtain ⟨l1, l2, -⟩ := hl
  rw [hp]
  by_cases hs : 0 < v.nextEvent - c
  · have hE : ¬ (v.nextEvent - c ≤ 0 ∧ v.inHblank ≠ 0 ∧
        (GBAVideoProcessEvents v c d).video.vcount = y) := fun h => by omega
    rw [if_neg hE]
    have hw : ¬ framePos v + c = 280896 := by
      split_ifs at hclk <;> omega
    rw [if_neg hw]
    split_ifs at hclk <;> omega
  · have hs2 : v.nextEvent - c ≤ 0 := by omega
    rcases ht with h | h
    · have hE : ¬ (v.nextEvent - c ≤ 0 ∧ v.inHblank ≠ 0 ∧
          (GBAVideoProcessEvents v c d).video.vcount = y) := fun h' => h'.2.1 h.1
      rw [if_neg hE]
      rw [if_pos h.1] at hclk
      have hw : ¬ framePos v + c = 280896 := by omega
      rw [if_neg hw]
      omega
    · have hb : v.inHblank ≠ 0 := by omega
      rw [if_neg hb] at hclk
      rw [processEvents_end_video v c d hs2 hb]
      simp only [hs2, hb, true_and, ne_eq, not_false_eq_true]
      by_cases h228 : v.vcount + 1 = 228
      · have hw : framePos v + c = 280896 := by omega
        rw [if_pos h228, if_pos hw]
        split_ifs <;> omega
      · have hw : ¬ framePos v + c = 280896 := by omega
        rw [if_neg h228, if_neg hw]
        split_ifs <;> omega

/-- Along a compliant run with the frame always drawn, the number of
`drawScanline y` calls (for a visible `y`) and of `finishFrame` calls is read
off the frame position at both ends and the number `W` of frame wraps. -/
theorem renderer_calls_run (sync : Nat → Bool) (hsync : ∀ k, sync k = true) (l : List Int)
    (s : Session) (ht : Timed s.video) (hl : Lined s.video) (hc : Compliant sync s l) :
    ∃ W : Int, 0 ≤ W ∧
      framePos (Session.run sync s l).video = framePos s.video + l.sum - 280896 * W ∧
      (0 ≤ s.video.vcount → 0 ≤ (Session.run sync s l).video.vcount) ∧
      (∀ y : Int, 0 ≤ y → y < 160 →
        (((Session.run sync s l).log.countP (Call.isDrawScanline y) : Nat) : Int) =
          (s.log.countP (Call.isDrawScanline y) : Nat)
            + ((framePos (Session.run sync s l).video - y * 1232) / 280896
              - (framePos s.video - y * 1232) / 280896 + W)) ∧
      (((Session.run sync s l).log.countP Call.isFinishFrame : Nat) : Int) =
        (s.log.countP Call.isFinishFrame : Nat)
          + ((framePos (Session.run sync s l).video - 160 * 1232) / 280896
            - (framePos s.video - 160 * 1232) / 280896 + W) := by
  induction l generalizing s with
  | nil =>
    refine ⟨0, le_refl 0, ?_, fun h => h, ?_, ?_⟩
    · simp [Session.run]
    · intro y _ _
      simp [Session.run]
    · simp [Session.run]
  | cons c cs ih =>
    obtain ⟨h0, h1, h2⟩ := hc
    have ht1 := process_timed sync s c ht h0
    have hl1 : Lined (Session.process sync s c).video := lined_process _ _ _ hl ht
    obtain ⟨W1, hW1, hpos, hnn, hdraw, hfin⟩ := ih _ ht1 hl1 h2
    have hp := framePos_process s.video c (sync s.asked) ht hl h0 h1
    have hvid : (Session.process sync s c).video =
        (GBAVideoProcessEvents s.video c (sync s.asked)).video := rfl
    have hlog : (Session.process sync s c).log =
        s.log ++ (GBAVideoProcessEvents s.video c (sync s.asked)).calls := rfl
    have hd : sync s.asked = true := hsync _
    simp only [Session.run, List.sum_cons]
    rw [hvid] at hpos hnn hdraw hfin
    refine ⟨W1 + (if framePos s.video + c = 280896 then 1 else 0), ?_, ?_, ?_, ?_, ?_⟩
    · split_ifs <;> omega
    · rw [hpos, hp]
      split_ifs <;> omega
    · intro h
      exact hnn (processEvents_vcount_nonneg _ _ _ h)
    · intro y hy0 hy1
      have hstep := (renderer_calls_step s.video c (sync s.asked) y).2
      have hent := enter_line_step s.video c (sync s.asked) y ht hl h0 h1 hy0 (by omega)
      rw [hdraw y hy0 hy1, hlog, List.countP_append, hstep]
      simp only [hd, hy1, and_true] at hent ⊢
      push_cast
      rw [hent]
      linarith
    · have hstep := (renderer_calls_step s.video c (sync s.asked) 0).1
      have hent := enter_line_step s.video c (sync s.asked) 160 ht hl h0 h1 (by decide)
        (by decide)
      rw [hfin, hlog, List.countP_append, hstep]
      simp only [hd, and_true] at hent ⊢
      push_cast
      rw [hent]
      ring_nf

/-- A call whose pacing query is answered "not drawing" makes no renderer
call. -/
theorem no_renderer_calls_when_skipping (v : GBAVideo) (cycles : Int) :
    (GBAVideoProcessEvents v cycles false).calls.countP Call.isRendererOutput = 0 := by
  by_cases hs : 0 < v.nextEvent - cycles
  · rw [processEvents_sub_calls v cycles false hs]
    rfl
  · have hs2 : v.nextEvent - cycles ≤ 0 := by omega
    by_cases hb : v.inHblank = 0
    · rw [processEvents_begin_calls v cycles false hs2 hb]
      split_ifs <;> rfl
    · rw [processEvents_end_calls v cycles false hs2 hb]
      simp only [Bool.false_eq_true, if_false, List.append_nil]
      split_ifs <;> rfl

theorem no_renderer_calls_run (sync : Nat → Bool) (hsync : ∀ k, sync k = false)
    (l : List Int) (s : Session) :
    (Session.run sync s l).log.countP Call.isRendererOutput
      = s.log.countP Call.isRendererOutput := by
  induction l generalizing s with
  | nil => rfl
  | cons c cs ih =>
    simp only [Session.run]
    rw [ih]
    simp only [Session.process, List.countP_append, hsync,
      no_renderer_calls_when_skipping, Nat.add_zero]

/-! ## The claims -/

/-- C1. With the constants 228 / 160 / 1006 / 226 (scanline period 1232, frame
period 280896): from any reachable state in which scanline 0 has just begun,
every budget-compliant sequence of `GBAVideoProcessEvents` calls whose cycles
sum to one frame period shows, call after call, the scanline values
0, 1, ..., 227 in this order, each once (repetitions of the current value
removed), and ends at scanline 0, not in Hblank, with `nextEvent = 1006`.
The counter is read between calls: inside the call that wraps the frame it
passes through 228 before line 97 resets it to 0. -/
theorem frame_visits_every_scanline (sync : Nat → Bool) (s : Session) (l : List Int)
    (hr : Reachable s.video) (hv : s.video.vcount = 0) (hb : s.video.inHblank = 0)
    (hn : s.video.nextEvent = 1006) (hc : Compliant sync s l) (hsum : l.sum = 280896) :
    (VIDEO_VERTICAL_TOTAL_PIXELS = 228 ∧ VIDEO_VERTICAL_PIXELS = 160 ∧
      VIDEO_HDRAW_LENGTH = 1006 ∧ VIDEO_HBLANK_LENGTH = 226 ∧
      VIDEO_HORIZONTAL_LENGTH = 1232 ∧ VIDEO_TOTAL_LENGTH = 280896) ∧
    List.destutter (· ≠ ·) (s.video.vcount :: scanlines sync s l)
        = (List.range 228).map (fun i : Nat => (i : Int)) ++ [0] ∧
    (Session.run sync s l).video.vcount = 0 ∧
    (Session.run sync s l).video.inHblank = 0 ∧
    (Session.run sync s l).video.nextEvent = 1006 := by
  have hw := reachable_timed_lined s.video hr
  have hp := framePos_line_start s.video hb hn
  have ht := frame_tail sync l s 0 hw.1 hw.2 hc (by simpa using hv) (by rw [hp, hv, hsum]; ring)
  have hf := run_timed_lined sync l s hw.1 hw.2 hc
  have hz := at_line_start _ 0 hf.1 (by rw [ht.2]; ring)
  refine ⟨⟨rfl, rfl, rfl, rfl, rfl, rfl⟩, ?_, hz⟩
  rw [List.destutter_cons', hv, List.range_eq_range']
  exact ht.1

/-- C1, instance: the budget-driven schedule of one frame from `lineZero`. -/
theorem frame_visits_every_scanline_witness :
    Compliant alwaysDrawing ⟨lineZero, 0, []⟩ (lineSchedule 228) ∧
    (lineSchedule 228).sum = 280896 ∧
    List.destutter (· ≠ ·) (lineZero.vcount :: scanlines alwaysDrawing ⟨lineZero, 0, []⟩ (lineSchedule 228))
        = (List.range 228).map (fun i : Nat => (i : Int)) ++ [0] ∧
    (Session.run alwaysDrawing ⟨lineZero, 0, []⟩ (lineSchedule 228)).video.vcount = 0 :=
  have hr : Reachable lineZero := reachableB_reachable _ lineZero_reachableB
  have hc : Compliant alwaysDrawing ⟨lineZero, 0, []⟩ (lineSchedule 228) :=
    compliant_lineSchedule alwaysDrawing 228 ⟨lineZero, 0, []⟩ (reachable_timed_lined _ hr).1
      (by decide) (by decide)
  have hs : (lineSchedule 228).sum = 280896 := by rw [sum_lineSchedule]; rfl
  have h := frame_visits_every_scanline alwaysDrawing ⟨lineZero, 0, []⟩ (lineSchedule 228)
    hr (by decide) (by decide) (by decide) hc hs
  ⟨hc, hs, h.2.1, h.2.2.1⟩

/-- C2. No drift: from a reachable state, two budget-compliant sequences of
`GBAVideoProcessEvents` calls with the same total number of cycles (one cycle
at a time, the returned budget each time, or anything between) end in the
same structure, with the same calls made in the same order and the
frame-pacing collaborator asked equally often; in particular advancing `a` then `b` with
`a + b` within the budget is the same as advancing `a + b` in one call. -/
theorem no_drift (sync : Nat → Bool) (s : Session) (l1 l2 : List Int)
    (hr : Reachable s.video) (h1 : Compliant sync s l1) (h2 : Compliant sync s l2)
    (hsum : l1.sum = l2.sum) :
    Session.run sync s l1 = Session.run sync s l2 ∧
    Session.run sync s l1 = Session.ticks sync s l1.sum.toNat ∧
    ∀ a b : Int, 0 ≤ a → 0 ≤ b → a + b ≤ s.video.nextEvent →
      Session.process sync (Session.process sync s a) b = Session.process sync s (a + b) := by
  have ht := (reachable_timed_lined s.video hr).1
  refine ⟨?_, run_eq_ticks sync l1 s ht h1, ?_⟩
  · rw [run_eq_ticks sync l1 s ht h1, run_eq_ticks sync l2 s ht h2, hsum]
  · intro a b ha hb hab
    exact process_split sync s a b ht ha hb hab

/-- C2, instance: one scanline from power-on, by budget and in uneven pieces. -/
theorem no_drift_witness :
    Compliant alwaysDrawing ⟨GBAVideoInit blank, 0, []⟩ [1006, 226] ∧
    Compliant alwaysDrawing ⟨GBAVideoInit blank, 0, []⟩ [500, 0, 506, 26, 200] ∧
    Session.run alwaysDrawing ⟨GBAVideoInit blank, 0, []⟩ [1006, 226]
      = Session.run alwaysDrawing ⟨GBAVideoInit blank, 0, []⟩ [500, 0, 506, 26, 200] :=
  ⟨by decide, by decide,
    (no_drift alwaysDrawing ⟨GBAVideoInit blank, 0, []⟩ [1006, 226] [500, 0, 506, 26, 200]
      (Reachable.init blank) (by decide) (by decide) (by decide)).1⟩

/-- C3. Sub-event advancement: when `nextEvent - cycles` is still positive the
call returns it, stores it in `nextEvent`, changes no other field and makes no
call to any collaborator. -/
theorem sub_event_advance (video : GBAVideo) (cycles : Int) (drawing : Bool)
    (h : 0 < video.nextEvent - cycles) :
    GBAVideoProcessEvents video cycles drawing =
      { video := { video with nextEvent := video.nextEvent - cycles }
        ret := video.nextEvent - cycles
        calls := [] } := by
  unfold GBAVideoProcessEvents
  simp only
  rw [if_neg (by omega)]

/-- C3, instance: 6 cycles after power-on. -/
theorem sub_event_advance_witness :
    0 < (GBAVideoInit blank).nextEvent - 6 ∧
    GBAVideoProcessEvents (GBAVideoInit blank) 6 true =
      { video := { GBAVideoInit blank with nextEvent := 1000 }, ret := 1000, calls := [] } :=
  ⟨by decide, sub_event_advance (GBAVideoInit blank) 6 true (by decide)⟩

/-- C4. From the `GBAVideoInit` state every budget-compliant sequence of calls
whose cycles sum to 1232 ends at scanline 0, outside Hblank, with
`nextEvent = 1006`. -/
theorem first_scanline_after_init (sync : Nat → Bool) (v0 : GBAVideo) (asked : Nat)
    (log : List Call) (l : List Int)
    (hc : Compliant sync ⟨GBAVideoInit v0, asked, log⟩ l) (hsum : l.sum = 1232) :
    (GBAVideoInit v0).vcount = -1 ∧ (GBAVideoInit v0).inHblank = 0 ∧
    (GBAVideoInit v0).nextEvent = 1006 ∧
    (Session.run sync ⟨GBAVideoInit v0, asked, log⟩ l).video.vcount = 0 ∧
    (Session.run sync ⟨GBAVideoInit v0, asked, log⟩ l).video.inHblank = 0 ∧
    (Session.run sync ⟨GBAVideoInit v0, asked, log⟩ l).video.nextEvent = 1006 := by
  have hw := reachable_timed_lined _ (Reachable.init v0)
  have hp0 : framePos (GBAVideoInit v0) = -1232 := by
    simp [framePos, lineClock, GBAVideoInit, VIDEO_HDRAW_LENGTH]
  have hp := framePos_run sync l ⟨GBAVideoInit v0, asked, log⟩ hw.1 hw.2 hc
    (by simp only [hp0, hsum]; decide)
  have hf := run_timed_lined sync l ⟨GBAVideoInit v0, asked, log⟩ hw.1 hw.2 hc
  have hz := at_line_start _ 0 hf.1 (by rw [hp]; simp only [hp0, hsum]; decide)
  exact ⟨rfl, rfl, rfl, hz⟩

/-- C4, instance: the scanline period split as 1006 + 226. -/
theorem first_scanline_after_init_witness :
    Compliant alwaysDrawing ⟨GBAVideoInit blank, 0, []⟩ [1006, 226] ∧
    (Session.run alwaysDrawing ⟨GBAVideoInit blank, 0, []⟩ [1006, 226]).video.vcount = 0 ∧
    (Session.run alwaysDrawing ⟨GBAVideoInit blank, 0, []⟩ [1006, 226]).video.inHblank = 0 :=
  have h := first_scanline_after_init alwaysDrawing blank 0 [] [1006, 226] (by decide) (by decide)
  ⟨by decide, h.2.2.2.1, h.2.2.2.2.1⟩

/-- C5. From a reachable state in which scanline 0 has just begun (such as the
state 1232 cycles after `GBAVideoInit`, with whatever DISPSTAT has been
written), every budget-compliant sequence of calls whose cycles sum to
160 * 1232 = 197120 ends at scanline 160 with `inVblank` set; over these calls
`finishFrame` is called exactly once if the frame-pacing collaborator answers
"drawing" to the query made on entering scanline 160 (the 160th query of the
stretch) and not at all otherwise, and the vblank interrupt is raised exactly
once if its enable is set and not at all if it is clear. -/
theorem first_vblank_after_visible_lines (sync : Nat → Bool) (v : GBAVideo) (asked : Nat)
    (l : List Int) (hr : Reachable v) (hv : v.vcount = 0) (hb : v.inHblank = 0)
    (hn : v.nextEvent = 1006) (hc : Compliant sync ⟨v, asked, []⟩ l)
    (hsum : l.sum = 197120) :
    (Session.run sync ⟨v, asked, []⟩ l).video.vcount = 160 ∧
    (Session.run sync ⟨v, asked, []⟩ l).video.inVblank = 1 ∧
    (Session.run sync ⟨v, asked, []⟩ l).log.countP Call.isFinishFrame
        = (if sync (asked + 159) = true then 1 else 0) ∧
    (Session.run sync ⟨v, asked, []⟩ l).log.count (Call.GBARaiseIRQ IRQ.IRQ_VBLANK)
        = (if v.vblankIRQ ≠ 0 then 1 else 0) := by
  have hw := reachable_timed_lined v hr
  have hp0 : framePos v = 0 := by rw [framePos_line_start v hb hn, hv]; rfl
  have hf := run_timed_lined sync l ⟨v, asked, []⟩ hw.1 hw.2 hc
  have hp := framePos_run sync l ⟨v, asked, []⟩ hw.1 hw.2 hc
    (by simp only [hp0, hsum]; decide)
  have hz := at_line_start _ 160 hf.1 (by rw [hp]; simp only [hp0, hsum]; decide)
  have hcount := stretch_run sync l ⟨v, asked, []⟩ hw.1 hw.2 hc
    (by simp only [hp0, hsum]; decide)
  simp only [hp0, hv] at hcount
  refine ⟨hz.1, ?_, ?_, ?_⟩
  · exact hf.2.2.2.2.2.1.2 ⟨by omega, by omega⟩
  · rw [hcount.2]; simp
  · rw [hcount.1]; simp

/-- C5, instance: vblank interrupt enabled by writing 0x0008 to DISPSTAT at the
start of scanline 0, then 160 scanlines driven by the returned budget. -/
theorem first_vblank_after_visible_lines_witness :
    Compliant alwaysDrawing ⟨GBAVideoWriteDISPSTAT lineZero 8, 0, []⟩ (lineSchedule 160) ∧
    (lineSchedule 160).sum = 197120 ∧
    (Session.run alwaysDrawing ⟨GBAVideoWriteDISPSTAT lineZero 8, 0, []⟩
        (lineSchedule 160)).video.vcount = 160 ∧
    (Session.run alwaysDrawing ⟨GBAVideoWriteDISPSTAT lineZero 8, 0, []⟩
        (lineSchedule 160)).log.countP Call.isFinishFrame = 1 ∧
    (Session.run alwaysDrawing ⟨GBAVideoWriteDISPSTAT lineZero 8, 0, []⟩
        (lineSchedule 160)).log.count (Call.GBARaiseIRQ IRQ.IRQ_VBLANK) = 1 :=
  have hr : Reachable (GBAVideoWriteDISPSTAT lineZero 8) :=
    Reachable.write _ 8 (reachableB_reachable _ lineZero_reachableB) (by decide)
  have hc : Compliant alwaysDrawing ⟨GBAVideoWriteDISPSTAT lineZero 8, 0, []⟩ (lineSchedule 160) :=
    compliant_lineSchedule alwaysDrawing 160 ⟨GBAVideoWriteDISPSTAT lineZero 8, 0, []⟩
      (reachable_timed_lined _ hr).1 (by decide) (by decide)
  have hs : (lineSchedule 160).sum = 197120 := by rw [sum_lineSchedule]; rfl
  have h := first_vblank_after_visible_lines alwaysDrawing (GBAVideoWriteDISPSTAT lineZero 8) 0
    (lineSchedule 160) hr (by decide) (by decide) (by decide) hc hs
  ⟨hc, hs, h.1, h.2.2.1, h.2.2.2⟩

/-- C6, as stated, fails: at the start of scanline 227 of the first frame (a
state reached from `GBAVideoInit` by budget-driven calls) the scanline lies in
160..227 but `inVblank` is 0. -/
theorem inVblank_clear_on_scanline_227 :
    Reachable lastLine ∧ lastLine.vcount = 227 ∧ lastLine.inVblank = 0 ∧
      ¬ (lastLine.inVblank ≠ 0 ↔ 160 ≤ lastLine.vcount ∧ lastLine.vcount ≤ 227) := by
  obtain ⟨hr, hv, hz⟩ := lastLine_facts
  refine ⟨reachableB_reachable _ hr, hv, hz, ?_⟩
  rw [hv, hz]
  decide

/-- C6, amended. In every state reachable from `GBAVideoInit` by
`GBAVideoProcessEvents` calls (non-negative cycles) and `GBAVideoWriteDISPSTAT`
calls, `inVblank` is 0 or 1, and it is set if and only if
160 <= scanline <= 226: the flag is set on entering scanline 160 and cleared on
entering scanline 227, the last scanline of the frame. -/
theorem inVblank_iff_scanline (v : GBAVideo) (hr : Reachable v) :
    (v.inVblank = 0 ∨ v.inVblank = 1) ∧
    (v.inVblank ≠ 0 ↔ 160 ≤ v.vcount ∧ v.vcount ≤ 226) := by
  have hw := (reachable_timed_lined v hr).2
  refine ⟨hw.2.2.1, ?_⟩
  have h5 := hw.2.2.2.2.1
  rcases hw.2.2.1 with h0 | h1
  · constructor
    · intro h; exact absurd h0 h
    · intro h; have := h5.2 h; omega
  · constructor
    · intro _; exact h5.1 h1
    · intro _; omega

/-- C6 amended, instance: the last scanline of the first frame. -/
theorem inVblank_iff_scanline_witness :
    Reachable lastLine ∧
    (lastLine.inVblank ≠ 0 ↔ 160 ≤ lastLine.vcount ∧ lastLine.vcount ≤ 226) :=
  ⟨reachableB_reachable _ lastLine_facts.1,
    (inVblank_iff_scanline lastLine (reachableB_reachable _ lastLine_facts.1)).2⟩

/-- C7, as stated, fails: at the start of scanline 0 the flag is set (target
0); writing 0x0500 to DISPSTAT moves the target to 5 and leaves the flag set,
and DISPSTAT still reads back with bit 2 set. -/
theorem vcounter_stale_after_write :
    Reachable (GBAVideoWriteDISPSTAT lineZero 0x0500) ∧
    (GBAVideoWriteDISPSTAT lineZero 0x0500).vcounter = 1 ∧
    (GBAVideoWriteDISPSTAT lineZero 0x0500).vcount = 0 ∧
    (GBAVideoWriteDISPSTAT lineZero 0x0500).vcountSetting = 5 ∧
    GBAVideoReadDISPSTAT (GBAVideoWriteDISPSTAT lineZero 0x0500) = 4 :=
  ⟨Reachable.write _ _ (reachableB_reachable _ lineZero_reachableB) (by decide),
    by decide, by decide, by decide, by decide⟩

/-- C7, amended. The vcounter flag is recomputed only by the end-of-Hblank
transition; `GBAVideoWriteDISPSTAT` changes the target but not the flag.  So in
every state reachable from `GBAVideoInit` by `GBAVideoProcessEvents` and
`GBAVideoWriteDISPSTAT` calls the flag is 0 or 1 and is set if and only if the
scanline equals the target `t` that was configured when the last end-of-Hblank
transition ran (0 before the first); bit 2 of `GBAVideoReadDISPSTAT` is set
under the same condition, and the flag agrees with the current target whenever
the target has not been changed since. -/
theorem vcounter_iff_latched_target (v : GBAVideo) (t : Int) (hr : ReachableLatched v t) :
    (v.vcounter = 0 ∨ v.vcounter = 1) ∧
    (v.vcounter ≠ 0 ↔ v.vcount = t) ∧
    ((GBAVideoReadDISPSTAT v).testBit 2 = true ↔ v.vcount = t) ∧
    (v.vcountSetting = t → (v.vcounter ≠ 0 ↔ v.vcount = v.vcountSetting)) := by
  have hfl := reachable_flags v (latched_reachable v t hr)
  have key : v.vcounter ≠ 0 ↔ v.vcount = t := by
    clear hfl
    induction hr with
    | init v0 => simp [GBAVideoInit]
    | process v t cycles d _ hc ih =>
      by_cases hs : 0 < v.nextEvent - cycles
      · rw [processEvents_sub_video v cycles d hs, if_neg (by omega)]
        exact ih
      · have hs2 : v.nextEvent - cycles ≤ 0 := by omega
        by_cases hb : v.inHblank = 0
        · rw [processEvents_begin_video v cycles d hs2 hb, if_neg (by simp [hb])]
          exact ih
        · rw [processEvents_end_video v cycles d hs2 hb,
            if_pos (show v.nextEvent - cycles ≤ 0 ∧ v.inHblank ≠ 0 from ⟨hs2, hb⟩)]
          simp only
          generalize (if v.vcount + 1 = 228 then 0 else v.vcount + 1) = x
          by_cases hx : x = v.vcountSetting <;> simp [hx]
    | write v t value _ _ ih =>
      unfold GBAVideoWriteDISPSTAT
      simp only
      split_ifs <;> exact ih
  refine ⟨hfl.2.2, key, ?_, ?_⟩
  · rw [← key]
    have e := readDISPSTAT_flags v hfl.1 hfl.2.1 hfl.2.2
    rw [Nat.testBit_to_div_mod]
    simp only [decide_eq_true_eq]
    rcases hfl.1 with h1 | h1 <;> rcases hfl.2.1 with h2 | h2 <;> rcases hfl.2.2 with h3 | h3 <;>
      rw [h1, h2, h3] at e <;> rw [h3] <;> omega
  · intro e
    rw [e]
    exact e ▸ key

/-- C7 amended, instance: after the write of 0x0500 at the start of scanline 0
the latched target is still 0. -/
theorem vcounter_iff_latched_target_witness :
    ReachableLatched (GBAVideoWriteDISPSTAT lineZero 0x0500) 0 ∧
    ((GBAVideoWriteDISPSTAT lineZero 0x0500).vcounter ≠ 0 ↔
      (GBAVideoWriteDISPSTAT lineZero 0x0500).vcount = 0) :=
  have h : ReachableLatched (GBAVideoWriteDISPSTAT lineZero 0x0500) 0 :=
    ReachableLatched.write _ 0 0x0500
      (ReachableLatched.process _ 0 226 false
        (ReachableLatched.process _ 0 1006 false (ReachableLatched.init blank) (by decide))
        (by decide))
      (by decide)
  ⟨h, (vcounter_iff_latched_target _ 0 h).2.1⟩

/-- C8. The countdown `nextVcounterIRQ` is not bounded: from power-on, with the
vcounter interrupt never enabled, after the 1743288 scanline periods of 7646
frames (about two minutes of emulated time) driven by the returned budget, the
rebase at lines 66-70 has brought it to -2147730816, below the least signed
32-bit value -2147483648. -/
theorem nextVcounterIRQ_leaves_int32 :
    ReachableB (afterLines 1743288) ∧
    (afterLines 1743288).vcounterIRQ = 0 ∧
    (afterLines 1743288).nextVcounterIRQ = -2147730816 ∧
    (afterLines 1743288).nextVcounterIRQ < -2147483648 ∧
    2 * VIDEO_TOTAL_LENGTH < -(afterLines 1743288).nextVcounterIRQ := by
  have h := afterLines_drift 1743288
  have e : (afterLines 1743288).nextVcounterIRQ = -2147730816 := by
    rw [h.1]
    decide
  refine ⟨afterLines_reachableB _, h.2, e, ?_, ?_⟩
  · rw [e]; decide
  · rw [e]; decide

/-- C9. In every state reachable from `GBAVideoInit`, `GBAVideoReadDISPSTAT`
returns a word whose bit 0 is set iff `inVblank`, bit 1 iff `inHblank`, bit 2
iff the vcounter flag, and whose bits 3 and up are zero: the result is below 8,
so neither the interrupt enables nor the target written to DISPSTAT are read
back. -/
theorem readDISPSTAT_packs_flags (v : GBAVideo) (hr : Reachable v) :
    ((GBAVideoReadDISPSTAT v).testBit 0 = true ↔ v.inVblank ≠ 0) ∧
    ((GBAVideoReadDISPSTAT v).testBit 1 = true ↔ v.inHblank ≠ 0) ∧
    ((GBAVideoReadDISPSTAT v).testBit 2 = true ↔ v.vcounter ≠ 0) ∧
    (∀ i, 3 ≤ i → (GBAVideoReadDISPSTAT v).testBit i = false) ∧
    GBAVideoReadDISPSTAT v < 8 := by
  have hfl := reachable_flags v hr
  have e := readDISPSTAT_flags v hfl.1 hfl.2.1 hfl.2.2
  have hlt : GBAVideoReadDISPSTAT v < 8 := by
    rcases hfl.1 with h1 | h1 <;> rcases hfl.2.1 with h2 | h2 <;>
      rcases hfl.2.2 with h3 | h3 <;> rw [h1, h2, h3] at e <;> omega
  refine ⟨?_, ?_, ?_, ?_, hlt⟩
  · rw [Nat.testBit_to_div_mod]
    simp only [decide_eq_true_eq]
    rcases hfl.1 with h1 | h1 <;> rcases hfl.2.1 with h2 | h2 <;>
      rcases hfl.2.2 with h3 | h3 <;> rw [h1, h2, h3] at e <;> rw [h1] <;> omega
  · rw [Nat.testBit_to_div_mod]
    simp only [decide_eq_true_eq]
    rcases hfl.1 with h1 | h1 <;> rcases hfl.2.1 with h2 | h2 <;>
      rcases hfl.2.2 with h3 | h3 <;> rw [h1, h2, h3] at e <;> rw [h2] <;> omega
  · rw [Nat.testBit_to_div_mod]
    simp only [decide_eq_true_eq]
    rcases hfl.1 with h1 | h1 <;> rcases hfl.2.1 with h2 | h2 <;>
      rcases hfl.2.2 with h3 | h3 <;> rw [h1, h2, h3] at e <;> rw [h3] <;> omega
  · intro i hi
    apply Nat.testBit_lt_two_pow
    calc GBAVideoReadDISPSTAT v < 2 ^ 3 := hlt
      _ ≤ 2 ^ i := Nat.pow_le_pow_right (by decide) hi

/-- C9, instance: after 0xFF38 was written to DISPSTAT at the start of scanline
0, the register reads back as 4 (only the vcounter flag). -/
theorem readDISPSTAT_packs_flags_witness :
    Reachable (GBAVideoWriteDISPSTAT lineZero 0xFF38) ∧
    GBAVideoReadDISPSTAT (GBAVideoWriteDISPSTAT lineZero 0xFF38) = 4 ∧
    GBAVideoReadDISPSTAT (GBAVideoWriteDISPSTAT lineZero 0xFF38) < 8 :=
  have hr : Reachable (GBAVideoWriteDISPSTAT lineZero 0xFF38) :=
    Reachable.write _ _ (reachableB_reachable _ lineZero_reachableB) (by decide)
  ⟨hr, by decide, (readDISPSTAT_packs_flags _ hr).2.2.2.2⟩

/-- C10. `GBAVideoWriteDISPSTAT` is a total function of the structure and the
16-bit value: afterwards the vblank interrupt is enabled iff bit 3 of the value
is set, the hblank interrupt iff bit 4, the vcounter interrupt iff bit 5, and
the target is `value >> 8`, between 0 and 255; scanline, `inHblank`,
`inVblank`, `nextEvent`, `eventDiff`, the Hblank countdowns and the vblank
countdown are unchanged, and so is `nextVcounterIRQ` when bit 5 is clear. -/
theorem writeDISPSTAT_decodes (video : GBAVideo) (value : Nat) (h : value < 65536) :
    ((GBAVideoWriteDISPSTAT video value).vblankIRQ ≠ 0 ↔ value.testBit 3 = true) ∧
    ((GBAVideoWriteDISPSTAT video value).hblankIRQ ≠ 0 ↔ value.testBit 4 = true) ∧
    ((GBAVideoWriteDISPSTAT video value).vcounterIRQ ≠ 0 ↔ value.testBit 5 = true) ∧
    (GBAVideoWriteDISPSTAT video value).vcountSetting = ((value >>> 8 : Nat) : Int) ∧
    0 ≤ (GBAVideoWriteDISPSTAT video value).vcountSetting ∧
    (GBAVideoWriteDISPSTAT video value).vcountSetting ≤ 255 ∧
    (GBAVideoWriteDISPSTAT video value).vcount = video.vcount ∧
    (GBAVideoWriteDISPSTAT video value).inHblank = video.inHblank ∧
    (GBAVideoWriteDISPSTAT video value).inVblank = video.inVblank ∧
    (GBAVideoWriteDISPSTAT video value).nextEvent = video.nextEvent ∧
    (GBAVideoWriteDISPSTAT video value).eventDiff = video.eventDiff ∧
    (GBAVideoWriteDISPSTAT video value).lastHblank = video.lastHblank ∧
    (GBAVideoWriteDISPSTAT video value).nextHblank = video.nextHblank ∧
    (GBAVideoWriteDISPSTAT video value).nextHblankIRQ = video.nextHblankIRQ ∧
    (GBAVideoWriteDISPSTAT video value).nextVblankIRQ = video.nextVblankIRQ ∧
    (value.testBit 5 = false →
      (GBAVideoWriteDISPSTAT video value).nextVcounterIRQ = video.nextVcounterIRQ) := by
  have h3 := and_bit_ne_zero value 3
  have h4 := and_bit_ne_zero value 4
  have h5 := and_bit_ne_zero value 5
  have h8 := high_byte value h
  have hlt : value >>> 8 < 256 := by
    rw [Nat.shiftRight_eq_div_pow]; omega
  norm_num at h3 h4 h5 h8
  unfold GBAVideoWriteDISPSTAT
  simp only
  split_ifs <;> simp_all <;> omega

/-- C10, instance: 0x0528 written at the start of scanline 0 enables the vblank
and vcounter interrupts, leaves the hblank interrupt disabled and sets the
target to 5. -/
theorem writeDISPSTAT_decodes_witness :
    0x0528 < 65536 ∧
    (GBAVideoWriteDISPSTAT lineZero 0x0528).vblankIRQ = 8 ∧
    (GBAVideoWriteDISPSTAT lineZero 0x0528).hblankIRQ = 0 ∧
    (GBAVideoWriteDISPSTAT lineZero 0x0528).vcounterIRQ = 32 ∧
    (GBAVideoWriteDISPSTAT lineZero 0x0528).vcountSetting = ((0x0528 >>> 8 : Nat) : Int) ∧
    (GBAVideoWriteDISPSTAT lineZero 0x0528).vcount = lineZero.vcount :=
  have h := writeDISPSTAT_decodes lineZero 0x0528 (by decide)
  ⟨by decide, by decide, by decide, by decide, h.2.2.2.1, h.2.2.2.2.2.2.1⟩

/-- C11. Recomputation of the vcounter countdown on a status write: for
every structure and every 16-bit value with bit 5 set, after
`GBAVideoWriteDISPSTAT` the field `nextVcounterIRQ` is `c` when
`c >= nextEvent` and `c + 280896` otherwise, where
`c = nextHblank + 226 + (target - scanline) * 1232` and `target = value >> 8`. -/
theorem writeDISPSTAT_recomputes_vcounterIRQ (video : GBAVideo) (value : Nat)
    (h : value < 65536) (h5 : value.testBit 5 = true) :
    (GBAVideoWriteDISPSTAT video value).nextVcounterIRQ =
      if video.nextHblank + 226 + (((value >>> 8 : Nat) : Int) - video.vcount) * 1232
          ≥ video.nextEvent
      then video.nextHblank + 226 + (((value >>> 8 : Nat) : Int) - video.vcount) * 1232
      else video.nextHblank + 226 + (((value >>> 8 : Nat) : Int) - video.vcount) * 1232
        + 280896 := by
  have e5 : ((value &&& 0x0020 : Nat) : Int) ≠ 0 := (and_bit_ne_zero value 5).2 h5
  have e8 := high_byte value h
  unfold GBAVideoWriteDISPSTAT
  simp only [VIDEO_HBLANK_LENGTH, VIDEO_HORIZONTAL_LENGTH, VIDEO_TOTAL_LENGTH]
  rw [if_pos e5, e8]
  split_ifs <;> first | rfl | omega

/-- C11, instance: at the start of scanline 0, writing 0x0520 (target 5) gives
1006 + 226 + 5 * 1232 = 7392. -/
theorem writeDISPSTAT_recomputes_vcounterIRQ_witness :
    0x0520 < 65536 ∧ Nat.testBit 0x0520 5 = true ∧
    (GBAVideoWriteDISPSTAT lineZero 0x0520).nextVcounterIRQ = 7392 :=
  have h := writeDISPSTAT_recomputes_vcounterIRQ lineZero 0x0520 (by decide) (by decide)
  ⟨by decide, by decide, h.trans (by decide)⟩

/-- C12, as stated, fails: at the start of scanline 0 (reached from
`GBAVideoInit` by budget-driven calls, outside Hblank), writing 0x0520 (bit 5
set, target 5 = scanline + 5) leaves `nextVcounterIRQ` at 7392, not 6160. -/
theorem vcounterIRQ_write_not_five_periods :
    ReachableB lineZero ∧ lineZero.inHblank = 0 ∧ lineZero.vcount + 5 ≤ 255 ∧
    Nat.testBit 0x0520 5 = true ∧ ((0x0520 >>> 8 : Nat) : Int) = lineZero.vcount + 5 ∧
    (GBAVideoWriteDISPSTAT lineZero 0x0520).nextVcounterIRQ = 7392 ∧
    (GBAVideoWriteDISPSTAT lineZero 0x0520).nextVcounterIRQ ≠ 5 * VIDEO_HORIZONTAL_LENGTH :=
  ⟨lineZero_reachableB, by decide, by decide, by decide, by decide, by decide, by decide⟩

/-- C12, amended. In every state reachable from `GBAVideoInit` in which
`inHblank` is clear, `GBAVideoWriteDISPSTAT` with bit 5 set and
target = scanline + 5 sets `nextVcounterIRQ` to 1006 + 226 + 5 * 1232 = 7392,
six scanline periods counted from the start of the current scanline.  The
countdown does not trigger the interrupt: when scanline + 5 <= 227, over any
budget-compliant run after the write the vcounter interrupt is raised once,
exactly when 5 * 1232 = 6160 cycles have elapsed since the start of the
current scanline (on entering scanline + 5), and not before. -/
theorem vcounterIRQ_write_five_lines_ahead (v : GBAVideo) (value : Nat)
    (hr : Reachable v) (hb : v.inHblank = 0) (h : value < 65536)
    (h5 : value.testBit 5 = true) (htarget : ((value >>> 8 : Nat) : Int) = v.vcount + 5) :
    (GBAVideoWriteDISPSTAT v value).nextVcounterIRQ = 7392 ∧
    ∀ (sync : Nat → Bool) (asked : Nat) (l : List Int), v.vcount + 5 ≤ 227 →
      Compliant sync ⟨GBAVideoWriteDISPSTAT v value, asked, []⟩ l →
      lineClock v + l.sum ≤ 6160 →
      (Session.run sync ⟨GBAVideoWriteDISPSTAT v value, asked, []⟩ l).log.count
          (Call.GBARaiseIRQ IRQ.IRQ_VCOUNTER)
        = (if lineClock v + l.sum = 6160 then 1 else 0) := by
  have hw := reachable_timed_lined v hr
  have hd := writeDISPSTAT_decodes v value h
  have hrw := Reachable.write v value hr h
  have hww := reachable_timed_lined _ hrw
  have hclk := lineClock_range v hw.1
  have hnh : v.nextHblank = 1006 := by rcases hw.1 with t | t <;> omega
  have hne : v.nextEvent ≤ 1006 := by rcases hw.1 with t | t <;> omega
  constructor
  · rw [writeDISPSTAT_recomputes_vcounterIRQ_aux v value h h5, htarget, hnh]
    rw [if_pos (by omega)]
    ring
  · intro sync asked l hv hc hsum
    have hfp : framePos (GBAVideoWriteDISPSTAT v value) = v.vcount * 1232 + lineClock v := by
      unfold framePos lineClock
      rw [hd.2.2.2.2.2.2.1, hd.2.2.2.2.2.2.2.1, hd.2.2.2.2.2.2.2.2.2.1]
    have hen : (GBAVideoWriteDISPSTAT v value).vcounterIRQ ≠ 0 := hd.2.2.1.2 h5
    have hset : (GBAVideoWriteDISPSTAT v value).vcountSetting = v.vcount + 5 :=
      hd.2.2.2.1.trans htarget
    have hrun := vcounter_run sync l ⟨GBAVideoWriteDISPSTAT v value, asked, []⟩ (v.vcount + 5)
      hww.1 hww.2 hc hv (by simp only [hfp]; omega) (by simp only [hfp]; omega) hset hen
    simp only [hfp] at hrun
    rw [hrun]
    simp only [List.count_nil, zero_add]
    by_cases hx : lineClock v + l.sum = 6160
    · rw [if_pos hx, if_pos (by omega)]
    · rw [if_neg hx, if_neg (by omega)]

/-- C12 amended, instance: target 5 written at the start of scanline 0, then
five scanline periods driven by the returned budget. -/
theorem vcounterIRQ_write_five_lines_ahead_witness :
    Reachable lineZero ∧ lineZero.inHblank = 0 ∧ Nat.testBit 0x0520 5 = true ∧
    ((0x0520 >>> 8 : Nat) : Int) = lineZero.vcount + 5 ∧
    (GBAVideoWriteDISPSTAT lineZero 0x0520).nextVcounterIRQ = 7392 ∧
    Compliant alwaysDrawing ⟨GBAVideoWriteDISPSTAT lineZero 0x0520, 0, []⟩ (lineSchedule 5) ∧
    (Session.run alwaysDrawing ⟨GBAVideoWriteDISPSTAT lineZero 0x0520, 0, []⟩
        (lineSchedule 5)).log.count (Call.GBARaiseIRQ IRQ.IRQ_VCOUNTER) = 1 :=
  have hr : Reachable lineZero := reachableB_reachable _ lineZero_reachableB
  have h := vcounterIRQ_write_five_lines_ahead lineZero 0x0520 hr (by decide) (by decide)
    (by decide) (by decide)
  have hc : Compliant alwaysDrawing ⟨GBAVideoWriteDISPSTAT lineZero 0x0520, 0, []⟩
      (lineSchedule 5) := by decide
  ⟨hr, by decide, by decide, by decide, h.1, hc,
    (h.2 alwaysDrawing 0 (lineSchedule 5) (by decide) hc (by decide)).trans (by decide)⟩

/-- C13. Renderer calls are gated as specified.  In a reachable state, one
`GBAVideoProcessEvents` call invokes `finishFrame` once if it performs an
end-of-Hblank transition whose new scanline is 160 and the frame-pacing
collaborator answers "drawing", and not otherwise; it invokes
`drawScanline(y)` once if it performs an end-of-Hblank transition whose new
scanline is `y` with `0 <= y < 160` and the answer is "drawing", and not
otherwise.  Over every budget-compliant run of one frame period (280896
cycles), with the frame always drawn `finishFrame` is invoked exactly once and
every row 0..159 is drawn exactly once; with the frame never drawn there is no
`drawScanline` or `finishFrame` call at all. -/
theorem renderer_calls_gated (sync : Nat → Bool) (v : GBAVideo) (asked : Nat)
    (l : List Int) (hr : Reachable v) (hc : Compliant sync ⟨v, asked, []⟩ l)
    (hsum : l.sum = 280896) :
    (∀ (cycles : Int) (d : Bool),
      (GBAVideoProcessEvents v cycles d).calls.countP Call.isFinishFrame =
        (if v.nextEvent - cycles ≤ 0 ∧ v.inHblank ≠ 0 ∧
            (GBAVideoProcessEvents v cycles d).video.vcount = 160 ∧ d = true
          then 1 else 0)) ∧
    (∀ (cycles : Int) (d : Bool) (y : Int),
      (GBAVideoProcessEvents v cycles d).calls.countP (Call.isDrawScanline y) =
        (if v.nextEvent - cycles ≤ 0 ∧ v.inHblank ≠ 0 ∧
            (GBAVideoProcessEvents v cycles d).video.vcount = y ∧
            0 ≤ y ∧ y < 160 ∧ d = true
          then 1 else 0)) ∧
    ((∀ k, sync k = true) →
      (Session.run sync ⟨v, asked, []⟩ l).log.countP Call.isFinishFrame = 1 ∧
      ∀ y : Int, 0 ≤ y → y < 160 →
        (Session.run sync ⟨v, asked, []⟩ l).log.countP (Call.isDrawScanline y) = 1) ∧
    ((∀ k, sync k = false) →
      (Session.run sync ⟨v, asked, []⟩ l).log.countP Call.isRendererOutput = 0) := by
  have hw := reachable_timed_lined v hr
  refine ⟨fun cycles d => (renderer_calls_step v cycles d 0).1, ?_, ?_, ?_⟩
  · intro cycles d y
    rw [(renderer_calls_step v cycles d y).2]
    have hl := (lined_process v cycles d hw.2 hw.1).1
    by_cases hy : 0 ≤ y
    · simp only [hy, true_and]
    · have h1 : ¬ (v.nextEvent - cycles ≤ 0 ∧ v.inHblank ≠ 0 ∧
          (GBAVideoProcessEvents v cycles d).video.vcount = y ∧ y < 160 ∧ d = true) := by
        intro h
        have hnn : 0 ≤ (GBAVideoProcessEvents v cycles d).video.vcount := by
          rw [processEvents_end_video v cycles d h.1 h.2.1]
          simp only
          have := hw.2.1
          split_ifs <;> omega
        omega
      have h2 : ¬ (v.nextEvent - cycles ≤ 0 ∧ v.inHblank ≠ 0 ∧
          (GBAVideoProcessEvents v cycles d).video.vcount = y ∧ 0 ≤ y ∧ y < 160 ∧ d = true) :=
        fun h => hy h.2.2.2.1
      rw [if_neg h1, if_neg h2]
  · intro hsync
    obtain ⟨W, hW, hpos, hnn, hdraw, hfin⟩ :=
      renderer_calls_run sync hsync l ⟨v, asked, []⟩ hw.1 hw.2 hc
    have hf := run_timed_lined sync l ⟨v, asked, []⟩ hw.1 hw.2 hc
    have r0 := lineClock_range v hw.1
    have r1 := lineClock_range _ hf.1
    have p0 : framePos v = v.vcount * 1232 + lineClock v := rfl
    have p1 : framePos (Session.run sync ⟨v, asked, []⟩ l).video =
        (Session.run sync ⟨v, asked, []⟩ l).video.vcount * 1232
          + lineClock (Session.run sync ⟨v, asked, []⟩ l).video := rfl
    have a0 := hw.2.1
    have a1 := hw.2.2.1
    have b0 := hf.2.1
    have b1 := hf.2.2.1
    simp only [hsum, List.countP_nil, Nat.cast_zero, zero_add] at hpos hdraw hfin
    constructor
    · have : (((Session.run sync ⟨v, asked, []⟩ l).log.countP Call.isFinishFrame : Nat) : Int)
          = 1 := by
        rw [hfin]
        by_cases hv0 : 0 ≤ v.vcount
        · have := hnn hv0
          omega
        · omega
      exact_mod_cast this
    · intro y hy0 hy1
      have : (((Session.run sync ⟨v, asked, []⟩ l).log.countP (Call.isDrawScanline y) : Nat)
          : Int) = 1 := by
        rw [hdraw y hy0 hy1]
        by_cases hv0 : 0 ≤ v.vcount
        · have := hnn hv0
          omega
        · omega
      exact_mod_cast this
  · intro hsync
    rw [no_renderer_calls_run sync hsync l ⟨v, asked, []⟩]
    rfl

/-- C13, instance: one frame from the start of scanline 0, driven by the
returned budget with every frame drawn. -/
theorem renderer_calls_gated_witness :
    Reachable lineZero ∧
    Compliant alwaysDrawing ⟨lineZero, 0, []⟩ (lineSchedule 228) ∧
    (lineSchedule 228).sum = 280896 ∧
    (Session.run alwaysDrawing ⟨lineZero, 0, []⟩ (lineSchedule 228)).log.countP
      Call.isFinishFrame = 1 ∧
    (Session.run alwaysDrawing ⟨lineZero, 0, []⟩ (lineSchedule 228)).log.countP
      (Call.isDrawScanline 159) = 1 :=
  have hr : Reachable lineZero := reachableB_reachable _ lineZero_reachableB
  have hc : Compliant alwaysDrawing ⟨lineZero, 0, []⟩ (lineSchedule 228) :=
    compliant_lineSchedule alwaysDrawing 228 ⟨lineZero, 0, []⟩ (reachable_timed_lined _ hr).1
      (by decide) (by decide)
  have hs : (lineSchedule 228).sum = 280896 := by rw [sum_lineSchedule]; rfl
  have h := (renderer_calls_gated alwaysDrawing lineZero 0 (lineSchedule 228) hr hc hs).2.2.1
    (fun _ => rfl)
  ⟨hr, hc, hs, h.1, h.2 159 (by decide) (by decide)⟩

/-- C14. Frame skipping does not perturb timing: for every structure and every
`cycles`, whichever of the two answers the frame-pacing collaborator gives, one
`GBAVideoProcessEvents` call yields the same resulting structure, the same
return value and, once the `drawScanline` / `finishFrame` calls are left out,
the same sequence of calls (interrupts, DMA triggers, pacing query and
frame-posted notification). -/
theorem frame_skip_noninterference (v : GBAVideo) (cycles : Int) (d1 d2 : Bool) :
    (GBAVideoProcessEvents v cycles d1).video = (GBAVideoProcessEvents v cycles d2).video ∧
    (GBAVideoProcessEvents v cycles d1).ret = (GBAVideoProcessEvents v cycles d2).ret ∧
    (GBAVideoProcessEvents v cycles d1).calls.filter (fun c => !c.isRendererOutput)
      = (GBAVideoProcessEvents v cycles d2).calls.filter (fun c => !c.isRendererOutput) := by
  have hv : (GBAVideoProcessEvents v cycles d1).video
      = (GBAVideoProcessEvents v cycles d2).video := by
    by_cases hs : 0 < v.nextEvent - cycles
    · rw [processEvents_sub_video v cycles d1 hs, processEvents_sub_video v cycles d2 hs]
    · have hs2 : v.nextEvent - cycles ≤ 0 := by omega
      by_cases hb : v.inHblank = 0
      · rw [processEvents_begin_video v cycles d1 hs2 hb,
          processEvents_begin_video v cycles d2 hs2 hb]
      · rw [processEvents_end_video v cycles d1 hs2 hb,
          processEvents_end_video v cycles d2 hs2 hb]
  refine ⟨hv, ?_, ?_⟩
  · rw [processEvents_ret, processEvents_ret, hv]
  · by_cases hs : 0 < v.nextEvent - cycles
    · rw [processEvents_sub_calls v cycles d1 hs, processEvents_sub_calls v cycles d2 hs]
    · have hs2 : v.nextEvent - cycles ≤ 0 := by omega
      by_cases hb : v.inHblank = 0
      · rw [processEvents_begin_calls v cycles d1 hs2 hb,
          processEvents_begin_calls v cycles d2 hs2 hb]
      · rw [processEvents_end_calls v cycles d1 hs2 hb,
          processEvents_end_calls v cycles d2 hs2 hb]
        simp only [List.filter_append]
        congr 1
        · congr 1
          by_cases h160 : v.vcount + 1 = 160
          · simp only [if_pos h160, List.filter_append]
            cases d1 <;> cases d2 <;> simp [Call.isRendererOutput]
          · simp only [if_neg h160]
        · split_ifs <;> simp [Call.isRendererOutput]

/-- C15. Renderer association: for every unit with renderer `old` attached and
every renderer `new`, `GBAVideoAssociateRenderer` makes exactly the calls
`deinit(old)`, `init(new)` in this order, leaves `new` attached with its
palette / vram / oam references set to the unit's own regions, leaves the
references of every other renderer and the regions themselves alone, and
changes no field of the structure but `renderer`; `GBAVideoDeinit` with
renderer `r` attached makes the calls `deinit(r)`, `init(dummy)` and leaves
the dummy renderer attached. -/
theorem associateRenderer_protocol (unit : VideoUnit) (new : Nat) :
    (GBAVideoAssociateRenderer unit new).2
      = [Call.deinit unit.video.renderer, Call.init new] ∧
    (GBAVideoAssociateRenderer unit new).1.video = { unit.video with renderer := new } ∧
    (GBAVideoAssociateRenderer unit new).1.renderers new
      = { palette := unit.palette, vram := unit.vram, oam := unit.oam } ∧
    (∀ r, r ≠ new →
      (GBAVideoAssociateRenderer unit new).1.renderers r = unit.renderers r) ∧
    (GBAVideoAssociateRenderer unit new).1.palette = unit.palette ∧
    (GBAVideoAssociateRenderer unit new).1.vram = unit.vram ∧
    (GBAVideoAssociateRenderer unit new).1.oam = unit.oam ∧
    (GBAVideoDeinit unit).2 = [Call.deinit unit.video.renderer, Call.init dummyRenderer] ∧
    (GBAVideoDeinit unit).1.video = { unit.video with renderer := dummyRenderer } := by
  refine ⟨rfl, rfl, ?_, ?_, rfl, rfl, rfl, rfl, rfl⟩
  · simp [GBAVideoAssociateRenderer]
  · intro r hr
    simp [GBAVideoAssociateRenderer, Function.update_noteq hr]

/-- C16. Interrupts are raised exactly under their conditions.  In every
`GBAVideoProcessEvents` call, for every structure: the Hblank interrupt is
raised once if the call performs a start-of-Hblank transition with `hblankIRQ`
set (on any scanline) and not otherwise; the Vblank interrupt once if it
performs an end-of-Hblank transition whose new scanline is 160 with `vblankIRQ`
set and not otherwise; the Vcounter interrupt once if it performs an
end-of-Hblank transition after which scanline equals `vcountSetting` with
`vcounterIRQ` set and not otherwise.  When the Vcounter interrupt is raised
the rebased `nextVcounterIRQ` is moved on by exactly 280896; in a transition
that does not raise it the countdown is only rebased, and without a transition
it is unchanged. -/
theorem interrupts_raised_exactly (v : GBAVideo) (cycles : Int) (d : Bool) :
    (GBAVideoProcessEvents v cycles d).calls.count (Call.GBARaiseIRQ IRQ.IRQ_HBLANK) =
      (if v.nextEvent - cycles ≤ 0 ∧ v.inHblank = 0 ∧ v.hblankIRQ ≠ 0 then 1 else 0) ∧
    (GBAVideoProcessEvents v cycles d).calls.count (Call.GBARaiseIRQ IRQ.IRQ_VBLANK) =
      (if v.nextEvent - cycles ≤ 0 ∧ v.inHblank ≠ 0 ∧
          (GBAVideoProcessEvents v cycles d).video.vcount = 160 ∧ v.vblankIRQ ≠ 0
        then 1 else 0) ∧
    (GBAVideoProcessEvents v cycles d).calls.count (Call.GBARaiseIRQ IRQ.IRQ_VCOUNTER) =
      (if v.nextEvent - cycles ≤ 0 ∧ v.inHblank ≠ 0 ∧
          (GBAVideoProcessEvents v cycles d).video.vcount = v.vcountSetting ∧
          v.vcounterIRQ ≠ 0
        then 1 else 0) ∧
    (GBAVideoProcessEvents v cycles d).video.nextVcounterIRQ =
      (if v.nextEvent - cycles ≤ 0 then
        (if v.inHblank ≠ 0 ∧
            (GBAVideoProcessEvents v cycles d).video.vcount = v.vcountSetting ∧
            v.vcounterIRQ ≠ 0
          then v.nextVcounterIRQ - v.eventDiff + 280896
          else v.nextVcounterIRQ - v.eventDiff)
      else v.nextVcounterIRQ) := by
  by_cases hs : 0 < v.nextEvent - cycles
  · have hn : ¬ v.nextEvent - cycles ≤ 0 := by omega
    rw [processEvents_sub_video v cycles d hs, processEvents_sub_calls v cycles d hs]
    simp [hn]
  · have hs2 : v.nextEvent - cycles ≤ 0 := by omega
    by_cases hb : v.inHblank = 0
    · rw [processEvents_begin_video v cycles d hs2 hb, processEvents_begin_calls v cycles d hs2 hb]
      simp only [hs2, hb, true_and, ne_eq, not_true_eq_false, false_and, if_false, if_true]
      refine ⟨?_, ?_, ?_, trivial⟩
      · split_ifs <;> simp
      · split_ifs <;> simp
      · split_ifs <;> simp
    · rw [processEvents_end_video v cycles d hs2 hb, processEvents_end_calls v cycles d hs2 hb]
      have e160 : (if v.vcount + 1 = 228 then (0 : Int) else v.vcount + 1) = 160
          ↔ v.vcount + 1 = 160 := by
        split_ifs <;> omega
      simp only [hs2, hb, true_and, ne_eq, not_false_eq_true, false_and, if_false, if_true,
        e160]
      generalize (if v.vcount + 1 = 228 then (0 : Int) else v.vcount + 1) = x
      refine ⟨?_, ?_, ?_, trivial⟩
      · split_ifs <;> simp
      · split_ifs <;> simp_all
      · split_ifs <;> simp_all

/-- C17. The Hblank DMA trigger is not confined to the visible scanlines
0..159: the test of line 119 is only `vcount < 160`, so the pre-roll scanline
-1 triggers it too.  At power-on (scanline -1, outside Hblank) the call
`GBAVideoProcessEvents(1006)` performs the start-of-Hblank transition and
calls `GBAMemoryRunHblankDMAs`; over the stretch from power-on to the first
entry into vblank (161 scanline periods driven by the returned budget, ending
on scanline 160) 161 triggers are issued, not 160. -/
theorem hblankDMA_on_preroll_scanline :
    Reachable (GBAVideoInit blank) ∧
    (GBAVideoInit blank).vcount = -1 ∧
    (GBAVideoInit blank).inHblank = 0 ∧
    (GBAVideoInit blank).nextEvent - 1006 ≤ 0 ∧
    (GBAVideoProcessEvents (GBAVideoInit blank) 1006 true).video.inHblank = 1 ∧
    (GBAVideoProcessEvents (GBAVideoInit blank) 1006 true).calls
      = [Call.GBAMemoryRunHblankDMAs] ∧
    (Session.run alwaysDrawing ⟨GBAVideoInit blank, 0, []⟩ (lineSchedule 161)).video.vcount
      = 160 ∧
    (Session.run alwaysDrawing ⟨GBAVideoInit blank, 0, []⟩ (lineSchedule 161)).log.count
      Call.GBAMemoryRunHblankDMAs = 161 := by
  have h := hblankDMA_lineSchedule alwaysDrawing 161 ⟨GBAVideoInit blank, 0, []⟩
    (reachable_timed_lined _ (Reachable.init blank)).1 rfl rfl (by decide)
  refine ⟨Reachable.init blank, by decide, by decide, by decide, by decide, by decide, ?_, ?_⟩
  · rw [h.2]; decide
  · rw [h.1]; decide

/-- C18. The rebase of lines 67-70 does not cover every countdown: it lowers
`lastHblank`, `nextHblank`, `nextHblankIRQ` and `nextVcounterIRQ` by
`eventDiff` and leaves `nextVblankIRQ` as it is.  At power-on, the call
`GBAVideoProcessEvents(1006)` performs a transition with `eventDiff = 1006`
and `nextVblankIRQ = 0`; afterwards `nextVblankIRQ` is still 0, not -1006,
while `nextVcounterIRQ` went from 0 to -1006.  The last part of the claim
holds: a call that performs a transition ends with `eventDiff = nextEvent`. -/
theorem nextVblankIRQ_not_rebased :
    (∀ v : GBAVideo,
      (rebase v).lastHblank = v.lastHblank - v.eventDiff ∧
      (rebase v).nextHblank = v.nextHblank - v.eventDiff ∧
      (rebase v).nextHblankIRQ = v.nextHblankIRQ - v.eventDiff ∧
      (rebase v).nextVcounterIRQ = v.nextVcounterIRQ - v.eventDiff ∧
      (rebase v).nextVblankIRQ = v.nextVblankIRQ) ∧
    (∀ (v : GBAVideo) (cycles : Int) (d : Bool), v.nextEvent - cycles ≤ 0 →
      (GBAVideoProcessEvents v cycles d).video.eventDiff
        = (GBAVideoProcessEvents v cycles d).video.nextEvent) ∧
    (GBAVideoInit blank).nextEvent - 1006 ≤ 0 ∧
    (GBAVideoInit blank).eventDiff = 1006 ∧
    (GBAVideoInit blank).nextVblankIRQ = 0 ∧
    (GBAVideoInit blank).nextVcounterIRQ = 0 ∧
    (GBAVideoProcessEvents (GBAVideoInit blank) 1006 true).video.nextVcounterIRQ = -1006 ∧
    (GBAVideoProcessEvents (GBAVideoInit blank) 1006 true).video.nextVblankIRQ = 0 ∧
    (GBAVideoProcessEvents (GBAVideoInit blank) 1006 true).video.nextVblankIRQ
      ≠ (GBAVideoInit blank).nextVblankIRQ - (GBAVideoInit blank).eventDiff := by
  refine ⟨fun v => ⟨rfl, rfl, rfl, rfl, rfl⟩, ?_, by decide, by decide, by decide, by decide,
    by decide, by decide, by decide⟩
  intro v cycles d h
  rw [processEvents_transition v cycles d h]
  split_ifs <;> rfl

/-- C19. The well-formedness predicate holds after `GBAVideoInit` and is
preserved by `GBAVideoProcessEvents` for every non-negative `cycles` and by
`GBAVideoWriteDISPSTAT` for every value.  From a well-formed state the value
returned by `GBAVideoProcessEvents` is positive and at most 1006, an
end-of-Hblank transition leaves the scanline non-negative, and a non-negative
scanline stays non-negative under both operations, so -1 does not come back
after the first end-of-Hblank transition. -/
theorem wellFormed_invariant (v0 v : GBAVideo) (cycles : Int) (d : Bool) (value : Nat)
    (h : WellFormed v) (hc : 0 ≤ cycles) :
    WellFormed (GBAVideoInit v0) ∧
    WellFormed (GBAVideoProcessEvents v cycles d).video ∧
    WellFormed (GBAVideoWriteDISPSTAT v value) ∧
    0 < (GBAVideoProcessEvents v cycles d).ret ∧
    (GBAVideoProcessEvents v cycles d).ret ≤ 1006 ∧
    (v.nextEvent - cycles ≤ 0 → v.inHblank ≠ 0 →
      0 ≤ (GBAVideoProcessEvents v cycles d).video.vcount) ∧
    (0 ≤ v.vcount → 0 ≤ (GBAVideoProcessEvents v cycles d).video.vcount) ∧
    (GBAVideoWriteDISPSTAT v value).vcount = v.vcount := by
  obtain ⟨w1, w2, w3, w4, w5, w6, w7⟩ := h
  have hinit : WellFormed (GBAVideoInit v0) := by
    simp [WellFormed, GBAVideoInit, VIDEO_HDRAW_LENGTH]
  have hwrite : WellFormed (GBAVideoWriteDISPSTAT v value) ∧
      (GBAVideoWriteDISPSTAT v value).vcount = v.vcount := by
    unfold GBAVideoWriteDISPSTAT WellFormed
    simp only
    split_ifs <;> exact ⟨⟨w1, w2, w3, w4, w5, w6, w7⟩, rfl⟩
  have hproc : WellFormed (GBAVideoProcessEvents v cycles d).video ∧
      (v.nextEvent - cycles ≤ 0 → v.inHblank ≠ 0 →
        0 ≤ (GBAVideoProcessEvents v cycles d).video.vcount) ∧
      (0 ≤ v.vcount → 0 ≤ (GBAVideoProcessEvents v cycles d).video.vcount) := by
    by_cases hs : 0 < v.nextEvent - cycles
    · rw [processEvents_sub_video v cycles d hs]
      refine ⟨⟨w1, w2, w3, w4, w5, ?_, ?_⟩, fun h => absurd h (by omega), fun h => h⟩
      · intro hb
        have := w6 hb
        simp only
        omega
      · intro hb
        have := w7 hb
        simp only
        omega
    · have hs2 : v.nextEvent - cycles ≤ 0 := by omega
      by_cases hb : v.inHblank = 0
      · rw [processEvents_begin_video v cycles d hs2 hb]
        have := w7 hb
        refine ⟨⟨w1, w2, Or.inr rfl, w4, w5, ?_, ?_⟩, fun _ h => absurd hb h, fun h => h⟩
        · intro _
          simp only
          omega
        · intro h1
          exact absurd h1 (by simp only; decide)
      · rw [processEvents_end_video v cycles d hs2 hb]
        have := w6 hb
        refine ⟨⟨?_, ?_, Or.inl rfl, ?_, ?_, ?_, ?_⟩, ?_, ?_⟩
        · simp only; split_ifs <;> omega
        · simp only; split_ifs <;> omega
        · simp only; split_ifs <;> first | exact w4 | omega
        · simp only; split_ifs <;> omega
        · intro h1
          exact absurd rfl h1
        · intro _
          simp only
          omega
        · intro _ _
          simp only; split_ifs <;> omega
        · intro _
          simp only; split_ifs <;> omega
  have hret := hproc.1
  obtain ⟨-, -, r3, -, -, r6, r7⟩ := hret
  refine ⟨hinit, hproc.1, hwrite.1, ?_, ?_, hproc.2.1, hproc.2.2, hwrite.2⟩
  · rw [processEvents_ret]
    by_cases hb : (GBAVideoProcessEvents v cycles d).video.inHblank = 0
    · exact (r7 hb).1
    · exact (r6 hb).1
  · rw [processEvents_ret]
    by_cases hb : (GBAVideoProcessEvents v cycles d).video.inHblank = 0
    · exact (r7 hb).2.1
    · have := r6 hb
      omega

/-- C19, instance: the power-on state is well formed, and so is the state one
full Hdraw later, where 226 is returned. -/
theorem wellFormed_invariant_witness :
    WellFormed (GBAVideoInit blank) ∧ (0 : Int) ≤ 1006 ∧
    WellFormed (GBAVideoProcessEvents (GBAVideoInit blank) 1006 true).video ∧
    (GBAVideoProcessEvents (GBAVideoInit blank) 1006 true).ret = 226 :=
  have h0 := (wellFormed_invariant blank (GBAVideoInit blank) 1006 true 0
    (by simp [WellFormed, GBAVideoInit, VIDEO_HDRAW_LENGTH]) (by decide))
  ⟨h0.1, by decide, h0.2.1, by decide⟩

/-- C20. Overshoot is discarded.  For every reachable state and every
`cycles >= nextEvent`, one `GBAVideoProcessEvents` call gives the same
resulting structure, return value and calls as the call with
`cycles = nextEvent`, and it performs exactly one transition: either Hdraw to
Hblank (scanline unchanged, 226 returned) or Hblank to Hdraw (scanline one
further, or from 227 back to 0, 1006 returned).  The new `nextEvent` is the
returned value, so none of the excess is carried over. -/
theorem overshoot_discarded (v : GBAVideo) (cycles : Int) (d : Bool)
    (hr : Reachable v) (hc : v.nextEvent ≤ cycles) :
    GBAVideoProcessEvents v cycles d = GBAVideoProcessEvents v v.nextEvent d ∧
    (GBAVideoProcessEvents v cycles d).video.nextEvent = (GBAVideoProcessEvents v cycles d).ret ∧
    ((v.inHblank = 0 ∧ (GBAVideoProcessEvents v cycles d).video.inHblank = 1 ∧
        (GBAVideoProcessEvents v cycles d).ret = 226 ∧
        (GBAVideoProcessEvents v cycles d).video.vcount = v.vcount) ∨
      (v.inHblank = 1 ∧ (GBAVideoProcessEvents v cycles d).video.inHblank = 0 ∧
        (GBAVideoProcessEvents v cycles d).ret = 1006 ∧
        ((GBAVideoProcessEvents v cycles d).video.vcount = v.vcount + 1 ∨
          (v.vcount = 227 ∧ (GBAVideoProcessEvents v cycles d).video.vcount = 0)))) := by
  have hw := reachable_timed_lined v hr
  have hs : v.nextEvent - cycles ≤ 0 := by omega
  refine ⟨processEvents_overshoot v cycles v.nextEvent d hs (by omega),
    (processEvents_ret v cycles d).symm, ?_⟩
  rw [processEvents_ret]
  rcases hw.1 with h | h
  · left
    rw [processEvents_begin_video v cycles d hs h.1]
    exact ⟨h.1, rfl, by simp only; omega, rfl⟩
  · right
    have hb : v.inHblank ≠ 0 := by omega
    rw [processEvents_end_video v cycles d hs hb]
    refine ⟨h.1, rfl, by simp only; omega, ?_⟩
    simp only
    have := hw.2.2.1
    split_ifs <;> omega

/-- C20, instance: 5000 cycles in one call from power-on behave like 1006. -/
theorem overshoot_discarded_witness :
    Reachable (GBAVideoInit blank) ∧ (GBAVideoInit blank).nextEvent ≤ 5000 ∧
    GBAVideoProcessEvents (GBAVideoInit blank) 5000 true
      = GBAVideoProcessEvents (GBAVideoInit blank) (GBAVideoInit blank).nextEvent true ∧
    (GBAVideoProcessEvents (GBAVideoInit blank) 5000 true).ret = 226 :=
  have h := overshoot_discarded (GBAVideoInit blank) 5000 true (Reachable.init blank) (by decide)
  ⟨Reachable.init blank, by decide, h.1, by decide⟩

end MGBA
